import Mathlib

/-
  Verification development for the KiCAD_autoBOM repository.

  The Python sources (utils.py, parsing.py, condensing.py, autoBOM.py) are
  shallowly embedded below: pure functions become Lean functions, pandas
  DataFrames become lists of rows of cells, the file system becomes an
  association list from path strings to content strings, and the external
  s-expression tokenizer/serializer (the sexpdata library, out of scope per
  the specification) is passed in as a pair of function parameters.
  Python exceptions are modelled with Except; the unbounded Python recursion
  over sheet hierarchies is modelled with an explicit fuel parameter.
-/

namespace AutoBOM

/-! ## Character and string primitives (Python builtins used by the source) -/

/-- Decimal value of a digit string, most significant digit first. -/
def digitsToInt (cs : List Char) : Int :=
  cs.foldl (fun a c => 10 * a + Int.ofNat (c.toNat - 48)) 0

/-- Model of the Python builtin `int()` applied to an (optional sign plus
    decimal digits) string, as used by the source on reference suffixes.
    Returns none where Python raises ValueError. -/
def pyInt? (cs : List Char) : Option Int :=
  match cs with
  | [] => none
  | c :: rest =>
    if c = '-' then
      if rest.isEmpty then none
      else if rest.all Char.isDigit then some (-(digitsToInt rest)) else none
    else if c = '+' then
      if rest.isEmpty then none
      else if rest.all Char.isDigit then some (digitsToInt rest) else none
    else if (c :: rest).all Char.isDigit then some (digitsToInt (c :: rest))
    else none

/-- Python string containment `needle in hay` (substring test). -/
def containsSub (needle : List Char) : List Char → Bool
  | [] => needle.isEmpty
  | c :: t => needle.isPrefixOf (c :: t) || containsSub needle t

def pyIn (needle hay : String) : Bool := containsSub needle.data hay.data

/-- Python `s.split(sep)` for a single-character separator. -/
def splitOnChar (sep : Char) : List Char → List (List Char)
  | [] => [[]]
  | c :: t =>
    let r := splitOnChar sep t
    if c = sep then [] :: r
    else
      match r with
      | [] => [[c]]
      | h :: t2 => (c :: h) :: t2

/-- Python `sep.join(parts)`. -/
def joinWith (sep : String) : List String → String
  | [] => ""
  | [x] => x
  | x :: xs => x ++ sep ++ joinWith sep xs

/-- Python str() of an int (nonnegative ints print without a sign). -/
def intStr (n : Int) : String := toString n

/-! ## utils._sort_as_numeric -/

/-- The inner loop of `utils._sort_as_numeric`: for increasing i, try
    `int(v[i:])`; on the first success return the consumed head `v[:i]` and
    the parsed value.  `done` accumulates the consumed head. -/
def findIntSplit : List Char → List Char → Option (List Char × Int)
  | _, [] => none
  | done, c :: rest =>
    match pyInt? (c :: rest) with
    | some n => some (done, n)
    | none => findIntSplit (done ++ [c]) rest

/-- The `as_integers` / `prefix` accumulation loop of `utils._sort_as_numeric`:
    val defaults to 0 when no suffix parses, and the prefix is captured from
    the first value whose parse succeeds while the prefix is still empty. -/
def extractIntsLoop : List String → String → List Int × String
  | [], pfx => ([], pfx)
  | v :: rest, pfx =>
    match findIntSplit [] v.data with
    | some (p, n) =>
      let pfx1 := if pfx.length < 1 then String.mk p else pfx
      let t := extractIntsLoop rest pfx1
      (n :: t.1, t.2)
    | none =>
      let t := extractIntsLoop rest pfx
      (0 :: t.1, t.2)

/-- Python string comparison (code-point lexicographic), kept structural so
    that concrete runs evaluate inside the kernel. -/
def strLeB : List Char → List Char → Bool
  | [], _ => true
  | _ :: _, [] => false
  | a :: as, b :: bs => if a = b then strLeB as bs else decide (a < b)

/-- Python tuple comparison on (int, str) pairs, as used by `pairs.sort()`. -/
def pairLe (p q : Int × String) : Prop :=
  p.1 < q.1 ∨ (p.1 = q.1 ∧ strLeB p.2.data q.2.data = true)

instance : DecidableRel pairLe := fun p q => by
  unfold pairLe
  infer_instance

/-- The sequence-detection loop of `utils._sort_as_numeric`.  The Python code
    keeps a list of lists where every finished inner list is [start, end] and
    the last one holds only its start; that state is rendered here as the
    finished runs `comp`, the current run start `cs` and the cursor `st`.
    After the loop the current run is closed with `seqs[-1].append(st)`. -/
def seqLoop : List (Int × Int) → Int → Int → List Int → List (Int × Int)
  | comp, cs, st, [] => comp ++ [(cs, st)]
  | comp, cs, st, i :: rest =>
    if i ≠ st + 1 then seqLoop (comp ++ [(cs, st)]) i i rest
    else seqLoop comp cs i rest

/-- The token emitted per run: `abs(en - st) > 1` gives a range,
    `st != en` gives a pair, otherwise a single reference. -/
def seqToken (pfx : String) (r : Int × Int) : String :=
  if (r.2 - r.1).natAbs > 1 then pfx ++ intStr r.1 ++ "-" ++ pfx ++ intStr r.2
  else if r.1 ≠ r.2 then pfx ++ intStr r.1 ++ ", " ++ pfx ++ intStr r.2
  else pfx ++ intStr r.1

/-- Embedding of `utils._sort_as_numeric`.  Python raises IndexError on an
    empty input (`sorted_int[0]`), modelled as none.  the stable Python list
    sort on (int, str) tuples is modelled with insertion sort under the
    tuple order `pairLe`. -/
def sortAsNumeric (values : List String) (replace_seq : Bool) : Option (List String) :=
  let ei := extractIntsLoop values ""
  let pairs := List.insertionSort pairLe (ei.1.zip values)
  match pairs with
  | [] => none
  | (st0, _) :: rest =>
    if replace_seq then
      some ((seqLoop [] st0 st0 (rest.map Prod.fst)).map (seqToken ei.2))
    else
      some (pairs.map Prod.snd)

/-! ## Spec-side decompression and the round-trip right-hand side -/

/-- Expansion of one run (s, e) back into the integers s..e. -/
def expandRun (r : Int × Int) : List Int :=
  (List.range ((r.2 - r.1).toNat + 1)).map (fun k => r.1 + Int.ofNat k)

/-- Modelled from the spec: "display compression (e.g. "R5-R13") must be
    reversible in intent (implementer may decompress for rename purposes)".
    No decompression routine exists under src/; this decoder inverts the
    three token shapes produced by `_sort_as_numeric`: a range token
    Prefix a-Prefix b expands to Prefix a .. Prefix b, a pair token
    "Prefix a, Prefix b" yields both references, anything else is a single
    reference. -/
def decompressToken (tok : String) : List String :=
  let cs := tok.data
  let p1 := cs.takeWhile (fun c => !c.isDigit)
  let r1 := cs.dropWhile (fun c => !c.isDigit)
  let d1 := r1.takeWhile (fun c => c.isDigit)
  let after := r1.dropWhile (fun c => c.isDigit)
  match after with
  | [] => [tok]
  | '-' :: rest2 =>
    let d2 := rest2.dropWhile (fun c => !c.isDigit)
    let a := digitsToInt d1
    let b := digitsToInt d2
    (List.range ((b - a).toNat + 1)).map (fun k => String.mk p1 ++ intStr (a + Int.ofNat k))
  | ',' :: rest2 =>
    [String.mk (p1 ++ d1), String.mk (rest2.dropWhile (fun c => c = ' '))]
  | _ => [tok]

/-- Modelled from the spec: decompress a compressed reference list. -/
def decompress (toks : List String) : List String :=
  (toks.map decompressToken).flatten

/-- Modelled from the spec: the round-trip right-hand side
    `sorted(set(refs))` under "(numeric sort)", realized with the source
    own numeric sort (the replace_seq=False branch of `_sort_as_numeric`)
    applied to the deduplicated list. -/
def sortedSetNumeric (refs : List String) : Option (List String) :=
  sortAsNumeric refs.dedup false

/-- Spec-side maximal-run decomposition of a (sorted, duplicate-free)
    integer list: the current run [s, e] is extended while the next element
    is exactly e + 1, otherwise it is closed and a new run starts. -/
def specRunsGo (s e : Int) : List Int → List (Int × Int)
  | [] => [(s, e)]
  | x :: xs => if x = e + 1 then specRunsGo s x xs else (s, e) :: specRunsGo x x xs

def specRuns : List Int → List (Int × Int)
  | [] => []
  | a :: rest => specRunsGo a a rest

/-- The token shape the claim assigns to each maximal run: length >= 3 gives
    one Prefix start-Prefix end token, length exactly 2 gives
    "Prefix a, Prefix b", a singleton gives the plain reference. -/
def specToken (pfx : String) (r : Int × Int) : String :=
  if r.2 - r.1 ≥ 2 then pfx ++ intStr r.1 ++ "-" ++ pfx ++ intStr r.2
  else if r.2 - r.1 = 1 then pfx ++ intStr r.1 ++ ", " ++ pfx ++ intStr r.2
  else pfx ++ intStr r.1

/-- Well-formedness of a prefix character for the round-trip statements:
    not a digit, not a sign, not a list separator, not a space.  (Reference
    prefixes are alphabetic, e.g. "R", "C", "U".) -/
def pfxChar (c : Char) : Prop :=
  c.isDigit = false ∧ c ≠ '-' ∧ c ≠ '+' ∧ c ≠ ',' ∧ c ≠ ' '

/-- Canonical decimal integer: nonnegative, and its printed form is a
    nonempty digit string that parses back to the same value (this rules
    out nothing for actual reference numbers; it lets the theorems connect
    the printed suffix with its numeric value). -/
def canonInt (n : Int) : Prop :=
  0 ≤ n ∧ (intStr n).data ≠ [] ∧ (∀ c ∈ (intStr n).data, c.isDigit = true) ∧
    digitsToInt (intStr n).data = n

instance (c : Char) : Decidable (pfxChar c) := by
  unfold pfxChar
  infer_instance

instance (n : Int) : Decidable (canonInt n) := by
  unfold canonInt
  infer_instance

/-! ## The s-expression token tree (sexpdata) and utils helpers over it -/

/-- Parsed s-expression node: bare symbols (which carry `.value()` in
    sexpdata), quoted strings, and nested lists.  Numeric atoms are not
    modelled; none of the embedded code paths read them. -/
inductive SExpr
  | sym (s : String)
  | str (s : String)
  | node (items : List SExpr)

/-- `utils._extract`: enumerate children that are nonempty lists whose head
    is a Symbol, yielding (index, head symbol text, whole child). -/
def extractTagged (items : List SExpr) : List (Nat × String × List SExpr) :=
  items.enum.filterMap (fun p =>
    match p.2 with
    | .node (.sym t :: rest) => some (p.1, t, .sym t :: rest)
    | _ => none)

/-- The text of an atom (sexpdata Symbols subclass str, so both compare as
    text in Python); reading a list where the source expects an atom is a
    dynamic type error there and yields "" here (never exercised). -/
def atomStr : SExpr → String
  | .sym s => s
  | .str s => s
  | .node _ => ""

/-- Python indexing `l[i]`; out-of-range raises IndexError in the source and
    defaults here (never exercised on well-formed trees). -/
def itemAt (l : List SExpr) (i : Nat) : SExpr := l.getD i (.str "")

/-- `utils.extract_sheet_info`: scan property children for Sheetname and
    Sheetfile. -/
def extract_sheet_info (sheet : List SExpr) : String × String :=
  (extractTagged sheet).foldl (fun acc t =>
    if t.2.1 = "property" then
      if atomStr (itemAt t.2.2 1) = "Sheetname" then (atomStr (itemAt t.2.2 2), acc.2)
      else if atomStr (itemAt t.2.2 1) = "Sheetfile" then (acc.1, atomStr (itemAt t.2.2 2))
      else acc
    else acc) ("", "")

/-- `val3[1].split("/")[1] == project_id`: the project segment of a path
    string.  (A path without "/" raises IndexError in the source; modelled
    as a non-match.)  project_id is None before the root uuid is seen, and a
    str comparison with None is False in Python. -/
def pathProjectMatches (pathStr : String) (project_id : Option String) : Bool :=
  match project_id with
  | none => false
  | some pid =>
    match (splitOnChar '/' pathStr.data).map String.mk with
    | _ :: x :: _ => x = pid
    | _ => false

/-- `utils.extract_instance_ref`: collect (reference text, path string) pairs
    under instances -> project -> path entries whose project segment matches
    project_id. -/
def extract_instance_ref (component : List SExpr) (project_id : Option String) :
    List (String × String) :=
  (extractTagged component).flatMap (fun t1 =>
    if t1.2.1 = "instances" then
      (extractTagged t1.2.2).flatMap (fun t2 =>
        if t2.2.1 = "project" then
          (extractTagged t2.2.2).flatMap (fun t3 =>
            if t3.2.1 = "path" ∧
                pathProjectMatches (atomStr (itemAt t3.2.2 1)) project_id = true then
              (extractTagged t3.2.2).filterMap (fun t4 =>
                if t4.2.1 = "reference" then
                  some (atomStr (itemAt t4.2.2 1), atomStr (itemAt t3.2.2 1))
                else none)
            else [])
        else [])
    else [])

/-! ## The rename map and utils.replace_instance_ref -/

/-- One row of the rename-map DataFrame built by compress_references:
    indexed by the old Reference, with NewRef and pID columns. -/
structure RMRow where
  ref : String
  newRef : String
  pID : String
deriving DecidableEq, Repr

abbrev RenameMap := List RMRow

/-- `DataFrame.drop(label)`: returns a NEW frame without the rows whose
    index equals the label.  The source calls this without inplace=True and
    discards the result. -/
def rmDrop (rm : RenameMap) (label : String) : RenameMap :=
  rm.filter (fun r => r.ref != label)

/-- `component[idx][idx2][idx3][i][1] = repl`: overwrite slot 1 of the
    reference child at index i of the path node. -/
def setRefLeaf (pathItems : List SExpr) (i : Nat) (repl : String) : List SExpr :=
  match pathItems.get? i with
  | some (.node es) => pathItems.set i (.node (es.set 1 (.str repl)))
  | _ => pathItems

/-- The replacement loop over the collected ref_list: look each reference up
    in the candidate rows of the path (candidates.loc with label v, first row on
    a duplicated index), overwrite the leaf, and evaluate
    `rename_map.drop(v)` exactly as the source does — producing a new frame
    that is immediately discarded, so rm is threaded on unchanged. -/
def applyRefList : List SExpr → List (String × Nat) → RenameMap → RenameMap →
    List SExpr × RenameMap
  | pathItems, [], _, rm => (pathItems, rm)
  | pathItems, (v, i) :: rest, candidates, rm =>
    match candidates.filter (fun r => r.ref == v) with
    | [] => applyRefList pathItems rest candidates rm
    | r :: _ =>
      let pathItems1 := setRefLeaf pathItems i r.newRef
      -- "# Prevent re-renaming": rename_map.drop(v) — result unused
      let _dropped := rmDrop rm v
      applyRefList pathItems1 rest candidates rm

/-- Processing of one path node by `utils.replace_instance_ref`: skip unless
    the pID of some rename-map row equals the path string, then collect the
    (reference text, index) list and run the replacement loop. -/
def processPathNode (pathItems : List SExpr) (rm : RenameMap) :
    List SExpr × RenameMap :=
  let pathStr := atomStr (itemAt pathItems 1)
  let valid := rm.filter (fun r => r.pID == pathStr)
  if valid.length < 1 then (pathItems, rm)
  else
    let refList := (extractTagged pathItems).filterMap (fun t4 =>
      if t4.2.1 = "reference" then some (atomStr (itemAt t4.2.2 1), t4.1) else none)
    applyRefList pathItems refList valid rm

/-- Transform every child that is a list headed by the given tag symbol,
    threading the rename map left to right (the source mutates the component
    in place; the map object itself is shared). -/
def mapTaggedChildren (tag : String)
    (f : List SExpr → RenameMap → List SExpr × RenameMap)
    (items : List SExpr) (rm : RenameMap) : List SExpr × RenameMap :=
  items.foldl (fun acc it =>
    match it with
    | .node (.sym t :: rest) =>
      if t = tag then
        let r := f (.sym t :: rest) acc.2
        (acc.1 ++ [SExpr.node r.1], r.2)
      else (acc.1 ++ [it], acc.2)
    | _ => (acc.1 ++ [it], acc.2)) ([], rm)

def processProjectNode (projItems : List SExpr) (rm : RenameMap) :
    List SExpr × RenameMap :=
  mapTaggedChildren "path" processPathNode projItems rm

def processInstancesNode (instItems : List SExpr) (rm : RenameMap) :
    List SExpr × RenameMap :=
  mapTaggedChildren "project" processProjectNode instItems rm

/-- `utils.replace_instance_ref` (the current, DataFrame-based version). -/
def replace_instance_ref (component : List SExpr) (rm : RenameMap) :
    List SExpr × RenameMap :=
  mapTaggedChildren "instances" processInstancesNode component rm

/-! ## File system model and condensing.replace_references -/

/-- The project folder: an association list from path strings to file
    contents (raw text). -/
abbrev FS := List (String × String)

inductive PyErr
  | fileNotFound (name : String)
  | valueError (missing : List String)
  | unpackError
  | fuelOut
deriving DecidableEq, Repr

def exceptEqDec {ε α : Type} [DecidableEq ε] [DecidableEq α] :
    (a b : Except ε α) → Decidable (a = b)
  | .error e1, .error e2 =>
    if h : e1 = e2 then isTrue (h ▸ rfl)
    else isFalse (fun hh => h (by cases hh; rfl))
  | .error _, .ok _ => isFalse (fun hh => by cases hh)
  | .ok _, .error _ => isFalse (fun hh => by cases hh)
  | .ok a1, .ok a2 =>
    if h : a1 = a2 then isTrue (h ▸ rfl)
    else isFalse (fun hh => h (by cases hh; rfl))

instance {ε α : Type} [DecidableEq ε] [DecidableEq α] : DecidableEq (Except ε α) :=
  exceptEqDec

def fsGet : FS → String → Option String
  | [], _ => none
  | (k1, v) :: t, k => if k1 = k then some v else fsGet t k

def fsSet : FS → String → String → FS
  | [], k, v => [(k, v)]
  | (k1, v1) :: t, k, v => if k1 = k then (k, v) :: t else (k1, v1) :: fsSet t k v

def fsRemove (fs : FS) (k : String) : FS := fs.filter (fun p => p.1 != k)

/-- `os.replace(src, dst)`: atomically rename src over dst. -/
def osReplace (fs : FS) (src dst : String) : Except PyErr FS :=
  match fsGet fs src with
  | none => .error (.fileNotFound src)
  | some content => .ok (fsSet (fsRemove fs src) dst content)

/-- `os.path.join` (separator model: "/"; the source ran under a single
    platform separator, which claims never depend on). -/
def pathJoin (path name : String) : String :=
  if path = "" then name else path ++ "/" ++ name

/-- `os.path.split`: split at the last separator; a name with no separator
    yields an empty head. -/
def pathSplit (s : String) : String × String :=
  let r := s.data.reverse
  (String.mk ((r.dropWhile (fun c => c ≠ '/')).drop 1).reverse,
   String.mk ((r.takeWhile (fun c => c ≠ '/')).reverse))

/-- Result of the single scan over a parsed sheet done by
    condensing.replace_references: symbols rewritten in place, sheet
    descriptors collected, project id captured from the first uuid. -/
structure TopScan where
  items : List SExpr
  rm : RenameMap
  sheets : List (String × String)
  pid : Option String

/-- The item loop of condensing.replace_references (lines 40-49). -/
def processTop (data : List SExpr) (rm : RenameMap) (pid : Option String) : TopScan :=
  data.foldl (fun acc it =>
    match it with
    | .node (.sym v :: rest) =>
      if v = "symbol" then
        let r := replace_instance_ref (.sym v :: rest) acc.rm
        { acc with items := acc.items ++ [SExpr.node r.1], rm := r.2 }
      else if v = "sheet" then
        { acc with items := acc.items ++ [it],
                   sheets := acc.sheets ++ [extract_sheet_info (.sym v :: rest)] }
      else if v = "uuid" ∧ acc.pid = none then
        { acc with items := acc.items ++ [it], pid := some (atomStr (itemAt rest 0)) }
      else { acc with items := acc.items ++ [it] }
    | _ => { acc with items := acc.items ++ [it] })
    ⟨[], rm, [], pid⟩

/-- `set([s[1] for s in sheets])`: the recursion list over child fileNames.
    CPython set iteration order is unspecified; it is refined here to
    duplicate removal (List.dedup). -/
def childList (sheets : List (String × String)) : List String :=
  if sheets.length > 0 then (sheets.map Prod.snd).dedup else []

/-- Sequential recursion into the child sheets, threading the file system
    and the shared rename map; `rec` is the recursive call one fuel level
    down.  The trace accumulates every file the pass opens and rewrites. -/
def foldChildren
    (rec : String → RenameMap → Option String → FS →
      Except PyErr (FS × RenameMap × List String)) :
    List String → RenameMap → Option String → FS → List String →
      Except PyErr (FS × RenameMap × List String)
  | [], rm, _, fs, tr => .ok (fs, rm, tr)
  | fname :: rest, rm, pid, fs, tr =>
    match rec fname rm pid fs with
    | .error e => .error e
    | .ok (fs1, rm1, tr1) => foldChildren rec rest rm1 pid fs1 (tr ++ tr1)

/-- Embedding of `condensing.replace_references`: read and parse the sheet,
    rewrite symbol references, unconditionally back the original file up
    under a "_" prefix (via os.replace) and write the serialized tree back,
    then recurse into the deduplicated child fileNames.  `loads`/`dumps` are
    the external sexpdata collaborators.  The returned trace lists every
    file processed by the pass, in order. -/
def replace_references (loads : String → List SExpr) (dumps : List SExpr → String) :
    Nat → String → String → RenameMap → Option String → FS →
      Except PyErr (FS × RenameMap × List String)
  | 0, _, _, _, _, _ => .error .fuelOut
  | fuel + 1, path, filename, rm, project_id, fs =>
    match fsGet fs (pathJoin path filename) with
    | none => .error (.fileNotFound (pathJoin path filename))
    | some raw =>
      let sc := processTop (loads raw) rm project_id
      let ht := pathSplit filename
      let written :=
        if pyIn path ht.1 then
          match osReplace fs filename (pathJoin ht.1 ("_" ++ ht.2)) with
          | .error e => Except.error e
          | .ok fs1 => Except.ok (fsSet fs1 filename (dumps sc.items))
        else
          match osReplace fs (pathJoin path filename) (pathJoin path ("_" ++ filename)) with
          | .error e => Except.error e
          | .ok fs1 => Except.ok (fsSet fs1 (pathJoin path filename) (dumps sc.items))
      match written with
      | .error e => .error e
      | .ok fs2 =>
        foldChildren
          (fun fn rm1 pid1 fs1 => replace_references loads dumps fuel path fn rm1 pid1 fs1)
          (childList sc.sheets) sc.rm sc.pid fs2 [pathJoin path filename]

/-! ## DataFrame model -/

/-- A pandas cell as used by this code base: strings, lists of reference
    strings (the to_string=False Reference column), and integers (Qty and
    the numeric sort column). -/
inductive Cell
  | s (v : String)
  | l (v : List String)
  | i (v : Int)
deriving DecidableEq, Repr

/-- A DataFrame: named columns and rows of cells aligned with them. -/
structure DF where
  cols : List String
  rows : List (List Cell)
deriving DecidableEq, Repr

def cellStr : Cell → String
  | .s v => v
  | _ => ""

def cellList : Cell → List String
  | .l v => v
  | _ => []

/-- `row[col]`: the cell of a row at a named column (a missing column is a
    KeyError in pandas; never exercised). -/
def rowCell (cols : List String) (row : List Cell) (c : String) : Cell :=
  match cols.findIdx? (fun x => x == c) with
  | some i => row.getD i (.s "")
  | none => .s ""

/-- Overwrite the cell of a row at a named column. -/
def setCell (cols : List String) (row : List Cell) (c : String) (v : Cell) : List Cell :=
  match cols.findIdx? (fun x => x == c) with
  | some i => row.set i v
  | none => row

/-- `df.drop(columns=[c])` (returns a new frame). -/
def dropCol (df : DF) (c : String) : DF :=
  match df.cols.findIdx? (fun x => x == c) with
  | none => df
  | some i => ⟨df.cols.eraseIdx i, df.rows.map (fun r => r.eraseIdx i)⟩

/-- Lexicographic Bool comparison on lists of strings (kept structural). -/
def strListLeB : List String → List String → Bool
  | [], _ => true
  | _ :: _, [] => false
  | a :: as, b :: bs => if a = b then strListLeB as bs else strLeB a.data b.data

/-- Cell comparison for sorting (Python compares strings with strings and
    ints with ints in these frames; heterogeneous comparison raises there
    and is given an arbitrary order here, never exercised). -/
def cellLeB : Cell → Cell → Bool
  | .s a, .s b => strLeB a.data b.data
  | .i a, .i b => decide (a ≤ b)
  | .l a, .l b => strListLeB a b
  | .s _, _ => true
  | .l _, .s _ => false
  | .l _, .i _ => true
  | .i _, _ => false

/-- Lexicographic comparison of grouping-key tuples. -/
def cellKeyLeB : List Cell → List Cell → Bool
  | [], _ => true
  | _ :: _, [] => false
  | a :: as, b :: bs => if a = b then cellKeyLeB as bs else cellLeB a b

/-- `df.sort_values(c)`: stable sort of the rows by one column. -/
def sortRowsBy (df : DF) (c : String) : DF :=
  ⟨df.cols,
   List.insertionSort (fun r1 r2 => cellLeB (rowCell df.cols r1 c) (rowCell df.cols r2 c) = true)
     df.rows⟩

/-- `df.sort_values([c1, c2])`: stable sort by two columns. -/
def sortRowsByTwo (df : DF) (c1 c2 : String) : DF :=
  ⟨df.cols,
   List.insertionSort (fun r1 r2 =>
     (if rowCell df.cols r1 c1 = rowCell df.cols r2 c1 then
        cellLeB (rowCell df.cols r1 c2) (rowCell df.cols r2 c2)
      else cellLeB (rowCell df.cols r1 c1) (rowCell df.cols r2 c1)) = true)
     df.rows⟩

/-! ## utils.split_refs and utils.parse_footprint -/

/-- `base = r.split("-")[0].split(",")[0]` for a string cell, `r[0]` for a
    list cell (an empty list raises IndexError in the source). -/
def splitRefBase : Cell → List Char
  | .s v => (v.data.takeWhile (fun ch => ch ≠ '-')).takeWhile (fun ch => ch ≠ ',')
  | .l vs => (vs.headD "").data
  | .i _ => []

/-- Index of the first numeric character; when none is numeric the Python
    loop variable is left at len - 1 (and an empty base is a NameError
    there; defaulted here, never exercised). -/
def firstDigitIdx (cs : List Char) : Nat :=
  match cs.findIdx? (fun c => c.isDigit) with
  | some i => i
  | none => cs.length - 1

/-- `utils.split_refs`: split reference designators (possibly grouped, e.g.
    "R1-R4" or "R1, R2") into prefixes and integer suffixes; an unparsable
    suffix becomes 0. -/
def split_refs (refs : List Cell) : List String × List Int :=
  let parts := refs.map (fun r =>
    let base := splitRefBase r
    let i := firstDigitIdx base
    let suffix :=
      match pyInt? (base.drop i) with
      | some n => n
      | none => 0
    (String.mk (base.take i), suffix))
  (parts.map Prod.fst, parts.map Prod.snd)

def SMD_SIZES : List String := ["0402", "0603", "0805", "1008", "1206", "1210"]
def SMD_PREFS : List String := ["LED", "R", "C", "L", "Fuse"]
def IC_SIZES : List String := ["SOT-23-3", "SOT-23-5", "SOT-23", "SOT-23-6", "SOT-89-3"]
def IGNORE : List String :=
  ["Custom Library", "footprints", "Capacitor_THT", "Diode_SMD",
   "Button_Switch_SMD", "Package_DFN", "Package_DFN_QFN", "Package_SO",
   "Crystal", "Inductor_SMD"]

/-- `utils.parse_footprint`: compact known footprint tokens, else return the
    non-ignored residue, joined by ":". -/
def parse_footprint (value : String) : String :=
  let segments := (splitOnChar ':' value.data).map String.mk
  let out := segments.flatMap (fun s =>
    if s ∈ IGNORE then []
    else
      (SMD_SIZES.flatMap (fun si => SMD_PREFS.filterMap (fun p =>
        let tmp := p ++ "_" ++ si
        if pyIn tmp s then some tmp else none)))
      ++ IC_SIZES.filter (fun si => pyIn si s))
  if out.length < 1 then
    joinWith ":" (segments.filter (fun s => !(IGNORE.contains s)))
  else joinWith ":" out

/-! ## parsing._condense_df -/

/-- The grouping key of a row: its values at every non-Reference column, in
    column order. -/
def keyOf (cols : List String) (row : List Cell) : List Cell :=
  (cols.zip row).filterMap (fun p => if p.1 = "Reference" then none else some p.2)

/-- `groupby(non-Reference columns)["Reference"].apply(list).reset_index()`:
    group keys sorted ascending (groupby default), each group carrying the
    list of its Reference strings in row order; reset_index places the key
    columns first and Reference last. -/
def groupByRefs (cols : List String) (rows : List (List Cell)) : DF :=
  let gcols := cols.filter (fun c => c ≠ "Reference")
  let keys := (rows.map (keyOf cols)).dedup
  let keysSorted := List.insertionSort (fun a b => cellKeyLeB a b = true) keys
  let outRows := keysSorted.map (fun k =>
    let members := rows.filter (fun r => keyOf cols r == k)
    k ++ [Cell.l (members.map (fun r => cellStr (rowCell cols r "Reference")))])
  ⟨gcols ++ ["Reference"], outRows⟩

/-- Embedding of `parsing._condense_df`: drop pID, sort by Reference, group,
    deduplicate and numerically sort the references of each group (compressing
    sequences when requested), add Qty, reorder the columns, and re-sort the
    groups by (prefix, first numeric value).  the Python list(set(v)) has
    unspecified order, refined to List.dedup; `_sort_as_numeric` on an empty
    group would raise (groups are never empty), propagated as an error. -/
def _condense_df (df : DF) (replace_sequences to_string : Bool) : Except PyErr DF := do
  let tmp1 := dropCol df "pID"
  let tmp2 := sortRowsBy tmp1 "Reference"
  let summary := groupByRefs tmp2.cols tmp2.rows
  let pairs ← summary.rows.mapM (fun r => do
    let v := cellList (rowCell summary.cols r "Reference")
    let tmp := v.dedup
    match sortAsNumeric tmp replace_sequences with
    | none => Except.error (PyErr.valueError [])
    | some sorted =>
      let cellRef := if to_string then Cell.s (joinWith ", " sorted) else Cell.l sorted
      Except.ok (cellRef, Cell.i (Int.ofNat tmp.length)))
  let cols2 := summary.cols ++ ["Qty"]
  let rows2 := (summary.rows.zip pairs).map (fun rp =>
    setCell summary.cols rp.1 "Reference" rp.2.1 ++ [rp.2.2])
  let tcolsBase : List String := ["Reference", "Value", "Qty", "Footprint", "Description"]
  let tcols := tcolsBase ++ cols2.filter (fun c => !(tcolsBase.contains c))
  let rows3 := rows2.map (fun r => tcols.map (fun c => rowCell cols2 r c))
  let sr := split_refs (rows3.map (fun r => rowCell tcols r "Reference"))
  let cols5 := tcols ++ ["sortvals1", "sortvals2"]
  let rows5 := (rows3.zip (sr.1.zip sr.2)).map (fun rp =>
    rp.1 ++ [Cell.s rp.2.1, Cell.i rp.2.2])
  let sorted5 := sortRowsByTwo ⟨cols5, rows5⟩ "sortvals1" "sortvals2"
  return dropCol (dropCol sorted5 "sortvals2") "sortvals1"

/-! ## parsing.get_BOM_items -/

/-- The BOM columns for the requested additional fields (the source also
    normalizes a lone string into a one-element list; callers here pass the
    normalized list). -/
def bomKeys (addF : List String) : List String :=
  ["Reference", "Value", "Description", "Footprint", "pID"] ++ addF

def headIs (s : String) (c : Char) : Bool :=
  match s.data with
  | [] => false
  | c1 :: _ => c1 = c

/-- `ref[0] in ignore_refs`: the first character, as a one-character string,
    against the ignore-prefix list. -/
def headIn (s : String) (l : List String) : Bool :=
  match s.data with
  | [] => false
  | c1 :: _ => l.contains (String.mk [c1])

/-- `term_dict[key] = value` for the cells-aligned-with-keys rendering of
    the ordered dict. -/
def setByKey (keys : List String) (vals : List Cell) (k : String) (v : Cell) : List Cell :=
  match keys.findIdx? (fun x => x == k) with
  | some i => vals.set i v
  | none => vals

/-- The property scan of `parsing.get_BOM_items` (`for v in com: ...`):
    walk the children of the component; any list child of length > 2 whose slot 1
    is a known column name updates term_dict; an empty instance reference is
    replaced by the Reference property value and, when that value begins
    with "#" or an ignored prefix, the component is flagged and the loop
    breaks. -/
def scanProps : List SExpr → List String → List String → String → List Cell →
    String × List Cell × Bool
  | [], _, _, ref, td => (ref, td, false)
  | v :: rest, keys, ignr, ref, td =>
    match v with
    | .node items =>
      if items.length > 2 then
        match itemAt items 1 with
        | .node _ => scanProps rest keys ignr ref td
        | key =>
          if atomStr key ∈ keys then
            if ref.length < 1 ∧ atomStr key = "Reference" then
              let newRef := atomStr (itemAt items 2)
              if headIs newRef '#' || headIn newRef ignr then
                (newRef, td, true)   -- ignore = True; break
              else scanProps rest keys ignr newRef td
            else if atomStr key = "Footprint" then
              scanProps rest keys ignr ref
                (setByKey keys td (atomStr key) (.s (parse_footprint (atomStr (itemAt items 2)))))
            else
              scanProps rest keys ignr ref
                (setByKey keys td (atomStr key) (.s (atomStr (itemAt items 2))))
          else scanProps rest keys ignr ref td
      else scanProps rest keys ignr ref td
    | _ => scanProps rest keys ignr ref td

/-- The initial term_dict `{k: "-" for k in keys}` with pID filled in,
    rendered as cells aligned with keys. -/
def initTd (keys : List String) (pID : String) : List Cell :=
  keys.map (fun k => if k = "pID" then Cell.s pID else Cell.s "-")

/-- The per-reference body of `parsing.get_BOM_items`: skip nonempty
    references starting with "#" or an ignored prefix, otherwise scan the
    properties and append a row unless the scan flagged the component. -/
def processRefs (com : List SExpr) (keys ignore_refs : List String)
    (refs : List (String × String)) : List (List Cell) :=
  refs.filterMap (fun rp =>
    if rp.1.length > 0 ∧ (headIs rp.1 '#' || headIn rp.1 ignore_refs) = true then none
    else
      let sc := scanProps com keys ignore_refs rp.1 (initTd keys rp.2)
      if sc.2.2 then none
      else some (setByKey keys sc.2.1 "Reference" (.s sc.1)))

/-- Embedding of `parsing.get_BOM_items`.  When a component has no matching
    instance reference the source sets `refs = [""]` and the following
    `for ref, pID in refs` fails to unpack the empty string — a ValueError,
    modelled as unpackError. -/
def get_BOM_items (components : List (List SExpr)) (project_id : Option String)
    (ignore_refs : List String) (get_raw : Bool) (addF : List String) :
    Except PyErr DF := do
  let keys := bomKeys addF
  let rows ← components.foldlM (fun acc com => do
    let refs := extract_instance_ref com project_id
    if refs.length < 1 then
      Except.error PyErr.unpackError
    else
      Except.ok (acc ++ processRefs com keys ignore_refs refs)) ([] : List (List Cell))
  let df : DF := ⟨keys, rows⟩
  if get_raw then return df
  else _condense_df df true true

/-! ## parsing.parse_file -/

/-- Result of the scan over a parsed sheet done by parse_file. -/
structure ParseScan where
  comps : List (List SExpr)
  sheets : List (String × String)
  pid : Option String

/-- The item loop of parsing.parse_file (lines 51-59). -/
def scanTop (data : List SExpr) (pid0 : Option String) : ParseScan :=
  data.foldl (fun acc it =>
    match it with
    | .node (.sym v :: rest) =>
      if v = "symbol" then { acc with comps := acc.comps ++ [SExpr.sym v :: rest] }
      else if v = "sheet" then
        { acc with sheets := acc.sheets ++ [extract_sheet_info (.sym v :: rest)] }
      else if v = "uuid" ∧ acc.pid = none then
        { acc with pid := some (atomStr (itemAt rest 0)) }
      else acc
    | _ => acc) ⟨[], [], pid0⟩

/-- Embedding of `parsing.parse_file`: recursively extract the raw BOM rows
    of the sheet and of every child sheet (no deduplication of child
    fileNames on this read path) and concatenate them. -/
def parse_file (loads : String → List SExpr) :
    Nat → String → String → Option String → List String → FS → Except PyErr DF
  | 0, _, _, _, _, _ => .error .fuelOut
  | fuel + 1, path, filename, project_id, addF, fs =>
    match fsGet fs (pathJoin path filename) with
    | none => .error (.fileNotFound (pathJoin path filename))
    | some raw => do
      let sc := scanTop (loads raw) project_id
      let base ← get_BOM_items sc.comps sc.pid ["G", "H", "J"] true addF
      let rows ← sc.sheets.foldlM (fun acc nf => do
        let tmp ← parse_file loads fuel path nf.2 sc.pid addF fs
        Except.ok (acc ++ tmp.rows)) base.rows
      return ⟨base.cols, rows⟩

/-! ## condensing.compress_references (planning phase) -/

/-- The inner `_get_prefix` of compress_references: characters before the
    first numeric-or-'?' character; when none matches, Python's loop leaves
    i at len - 1. -/
def getPfxQ (val : String) : String :=
  match val.data.findIdx? (fun c => c.isDigit || c == '?') with
  | some i => String.mk (val.data.take i)
  | none => String.mk (val.data.take (val.data.length - 1))

/-- Python dict assignment d[k] = v: overwrite in place, preserving
    insertion order. -/
def dictInsert (d : List (String × String)) (k v : String) : List (String × String) :=
  if d.any (fun p => p.1 == k) then d.map (fun p => if p.1 == k then (k, v) else p)
  else d ++ [(k, v)]

/-- Python dict.get(k, dflt). -/
def dictGetD (d : List (String × String)) (k dflt : String) : String :=
  match d.find? (fun p => p.1 == k) with
  | some p => p.2
  | none => dflt

/-- The try/except KeyError counter bump of the prefix-count loop. -/
def bumpCount (d : List (String × Int)) (k : String) : List (String × Int) :=
  if d.any (fun p => p.1 == k) then d.map (fun p => if p.1 == k then (k, p.2 + 1) else p)
  else d ++ [(k, 1)]

def idxGet (d : List (String × Int)) (k : String) : Int :=
  match d.find? (fun p => p.1 == k) with
  | some p => p.2
  | none => 1

def idxBump (d : List (String × Int)) (k : String) : List (String × Int) :=
  d.map (fun p => if p.1 == k then (k, p.2 + 1) else p)

/-- The rename-map generation walk of compress_references (lines 116-122),
    over the flattened reference lists of the condensed frame: assign the
    next sequential number per prefix and record old -> new only when they
    differ.  Also returns every (ref, assigned text) pair for the
    idempotence statement. -/
def planLoop : List String → List (String × Int) → List (String × String) →
    List (String × String) → List (String × String) × List (String × Int) × List (String × String)
  | [], idx, rmap, assigns => (rmap, idx, assigns)
  | ref :: rest, idx, rmap, assigns =>
    let pre := getPfxQ ref
    let tmp := pre ++ intStr (idxGet idx pre)
    let rmap1 := if tmp ≠ ref then dictInsert rmap ref tmp else rmap
    planLoop rest (idxBump idx pre) rmap1 (assigns ++ [(ref, tmp)])

/-- The reference lists of the condensed frame (to_string=False cells). -/
def condensedRefLists (cdf : DF) : List (List String) :=
  cdf.rows.map (fun r => cellList (rowCell cdf.cols r "Reference"))

/-- The (old reference, assigned text) pairs produced by the planning walk
    over a condensed frame — the notion of "the number the planner would
    assign" used by the idempotence claim. -/
def planAssignments (cdf : DF) : List (String × String) :=
  let lists := condensedRefLists cdf
  let counts := lists.foldl (fun d line =>
    line.foldl (fun d2 ref => bumpCount d2 (getPfxQ ref)) d) []
  (planLoop lists.flatten (counts.map (fun p => (p.1, (1 : Int)))) [] []).2.2

/-- The pure planning phase of `condensing.compress_references`
    (lines 99-135, between parse_file and replace_references): condense the
    raw frame without display compression, count references per prefix,
    walk the groups assigning sequential numbers, map the Reference of every raw row
    through the dict, keep rows whose reference changes, and sort
    the resulting (NewRef, pID) frame by the new prefix and value. -/
def planFromCondensed (base_df cdf : DF) : RenameMap :=
  let lists := condensedRefLists cdf
  let counts := lists.foldl (fun d line =>
    line.foldl (fun d2 ref => bumpCount d2 (getPfxQ ref)) d) []
  let idx0 := counts.map (fun p => (p.1, (1 : Int)))
  let pl := planLoop lists.flatten idx0 [] []
  let rows := base_df.rows.map (fun r =>
    let ref := cellStr (rowCell base_df.cols r "Reference")
    RMRow.mk ref (dictGetD pl.1 ref ref) (cellStr (rowCell base_df.cols r "pID")))
  let kept := rows.filter (fun r => r.ref != r.newRef)
  let keyed := kept.map (fun r =>
    let sr := split_refs [Cell.s r.newRef]
    ((sr.1.headD "", sr.2.headD 0), r))
  let sortedRows := List.insertionSort (fun a b =>
    (if a.1.1 = b.1.1 then decide (a.1.2 ≤ b.1.2) else strLeB a.1.1.data b.1.1.data) = true)
    keyed
  sortedRows.map Prod.snd

def compress_references_plan (base_df : DF) : Except PyErr RenameMap := do
  let cdf ← _condense_df base_df false false
  return planFromCondensed base_df cdf

/-! ## utils.df_to_string (validation part) and parsing.get_BOM_all_sheets -/

/-- The column-order resolution and missing-column validation of
    `utils.df_to_string` (lines 343-353): unknown names in a caller-supplied
    custom order raise ValueError listing exactly the missing names; the
    surviving order is the custom order followed by the omitted columns. -/
def df_to_string_check (df : DF) (custom_order : Option (List String)) :
    Except PyErr (List String) :=
  match custom_order with
  | some co =>
    let missing := co.filter (fun c => !(df.cols.contains c))
    if missing.length > 0 then .error (.valueError missing)
    else .ok (co ++ df.cols.filter (fun c => !(co.contains c)))
  | none => .ok df.cols

/-- `utils.df_to_string`: the table rendering itself is display formatting,
    out of scope per the spec (§1); it enters as the `render` collaborator
    applied to the frame and the resolved column order. -/
def df_to_string (render : DF → List String → String) (df : DF)
    (custom_order : Option (List String)) : Except PyErr String := do
  let co ← df_to_string_check df custom_order
  return render df co

/-- `filename.split(".")[0] + "_BOM.csv"`. -/
def csvName (filename : String) : String :=
  String.mk (filename.data.takeWhile (fun c => c ≠ '.')) ++ "_BOM.csv"

/-- Embedding of `parsing.get_BOM_all_sheets`: parse all sheets, condense,
    export the CSV when requested, then render (which validates any custom
    column order).  The CSV serialization `toCsv` is the external pandas
    collaborator.  The file system is returned alongside the outcome so
    that writes performed before an exception remain visible, exactly as on
    a real file system. -/
def get_BOM_all_sheets (loads : String → List SExpr) (toCsv : DF → String)
    (render : DF → List String → String) (fuel : Nat) (basepath filename : String)
    (to_csv : Bool) (addF : List String) (custom_order : Option (List String))
    (fs : FS) : FS × Except PyErr String :=
  match parse_file loads fuel basepath filename none addF fs with
  | .error e => (fs, .error e)
  | .ok base_df =>
    match _condense_df base_df true true with
    | .error e => (fs, .error e)
    | .ok condensed =>
      let fs1 := if to_csv then
          fsSet fs (pathJoin basepath (csvName filename)) (toCsv condensed)
        else fs
      match df_to_string render condensed custom_order with
      | .error e => (fs1, .error e)
      | .ok text => (fs1, .ok text)

/-! ## A store semantics for the pandas frames of _condense_df

The frame claims distinguish operations that return a new frame
(`df.drop(columns=...)`, `groupby(...).apply(list).reset_index()`, column
selection `summary[[...]]`) from operations that mutate their receiver
(`sort_values(..., inplace=True)`, column assignment `summary[c] = ...`,
`drop(..., axis=1, inplace=True)`).  Frames live in a store addressed by
handles; allocating operations write fresh handles, mutating operations
overwrite existing ones. -/

structure PdStore where
  mem : List (Nat × DF)
  next : Nat
deriving DecidableEq, Repr

def stGet : List (Nat × DF) → Nat → Option DF
  | [], _ => none
  | (k1, v) :: t, k => if k1 = k then some v else stGet t k

def stSet : List (Nat × DF) → Nat → DF → List (Nat × DF)
  | [], k, v => [(k, v)]
  | (k1, v1) :: t, k, v => if k1 = k then (k, v) :: t else (k1, v1) :: stSet t k v

/-- Allocate a fresh frame. -/
def stAlloc (st : PdStore) (df : DF) : PdStore × Nat :=
  (⟨stSet st.mem st.next df, st.next + 1⟩, st.next)

/-- Mutate the frame held by an existing handle. -/
def stMut (st : PdStore) (h : Nat) (f : DF → DF) : PdStore :=
  match stGet st.mem h with
  | some df => ⟨stSet st.mem h (f df), st.next⟩
  | none => st

/-- The Reference/Qty update of `_condense_df` (the qty/refs loop and the
    two column assignments), as a frame transformer. -/
def condenseQtyRefs (summary : DF) (replace_sequences to_string : Bool) :
    Except PyErr DF := do
  let pairs ← summary.rows.mapM (fun r => do
    let v := cellList (rowCell summary.cols r "Reference")
    let tmp := v.dedup
    match sortAsNumeric tmp replace_sequences with
    | none => Except.error (PyErr.valueError [])
    | some sorted =>
      let cellRef := if to_string then Cell.s (joinWith ", " sorted) else Cell.l sorted
      Except.ok (cellRef, Cell.i (Int.ofNat tmp.length)))
  return ⟨summary.cols ++ ["Qty"],
    (summary.rows.zip pairs).map (fun rp =>
      setCell summary.cols rp.1 "Reference" rp.2.1 ++ [rp.2.2])⟩

/-- The column reordering `summary[standard + additional]`. -/
def condenseReorder (df : DF) : DF :=
  let tcolsBase : List String := ["Reference", "Value", "Qty", "Footprint", "Description"]
  let tcols := tcolsBase ++ df.cols.filter (fun c => !(tcolsBase.contains c))
  ⟨tcols, df.rows.map (fun r => tcols.map (fun c => rowCell df.cols r c))⟩

/-- The final re-sort: add sortvals1/sortvals2, sort by them, drop them. -/
def condenseResort (df : DF) : DF :=
  let sr := split_refs (df.rows.map (fun r => rowCell df.cols r "Reference"))
  let cols5 := df.cols ++ ["sortvals1", "sortvals2"]
  let rows5 := (df.rows.zip (sr.1.zip sr.2)).map (fun rp =>
    rp.1 ++ [Cell.s rp.2.1, Cell.i rp.2.2])
  let sorted5 := sortRowsByTwo ⟨cols5, rows5⟩ "sortvals1" "sortvals2"
  dropCol (dropCol sorted5 "sortvals2") "sortvals1"

/-- `parsing._condense_df` under the store semantics.  Step by step:
    `tmp_df = df.drop(columns=["pID"])` allocates; `tmp_df.sort_values(...,
    inplace=True)` mutates tmp_df; the groupby/apply/reset_index allocates
    summary; the Reference/Qty assignments mutate summary; the column
    selection allocates; the sortvals assignments, in-place sort and
    in-place axis-1 drop mutate that frame, which is returned. -/
def condense_df_st (st : PdStore) (h : Nat) (replace_sequences to_string : Bool) :
    Except PyErr (PdStore × Nat) := do
  match stGet st.mem h with
  | none => .error (.valueError [])
  | some df =>
    let a1 := stAlloc st (dropCol df "pID")
    let st2 := stMut a1.1 a1.2 (fun d => sortRowsBy d "Reference")
    match stGet st2.mem a1.2 with
    | none => .error (.valueError [])
    | some tmp2 =>
      let a2 := stAlloc st2 (groupByRefs tmp2.cols tmp2.rows)
      match stGet a2.1.mem a2.2 with
      | none => .error (.valueError [])
      | some summary =>
        let upd ← condenseQtyRefs summary replace_sequences to_string
        let st3 := stMut a2.1 a2.2 (fun _ => upd)
        let a3 := stAlloc st3 (condenseReorder upd)
        let st4 := stMut a3.1 a3.2 condenseResort
        return (st4, a3.2)

/-! ## Concrete instances used by the claim theorems -/

/-- A schematic sheet child node carrying Sheetname and Sheetfile. -/
def sheetNode (nm file : String) : SExpr :=
  .node [.sym "sheet",
    .node [.sym "property", .str "Sheetname", .str nm],
    .node [.sym "property", .str "Sheetfile", .str file]]

/-- A diamond hierarchy: R references B and C, and both B and C reference
    the shared child D. -/
def loadsDiamond : String → List SExpr := fun s =>
  if s = "rawR" then [sheetNode "B" "B", sheetNode "C" "C"]
  else if s = "rawB" then [sheetNode "D" "D"]
  else if s = "rawC" then [sheetNode "D" "D"]
  else []

def dumpsConst : List SExpr → String := fun _ => "serialized"

def fsDiamond : FS :=
  [("p/R", "rawR"), ("p/B", "rawB"), ("p/C", "rawC"), ("p/D", "rawD")]

/-- A symbol with one instance path and reference text R1 under path /p/a. -/
def compA : List SExpr :=
  [.sym "symbol",
   .node [.sym "instances",
     .node [.sym "project", .str "proj",
       .node [.sym "path", .str "/p/a",
         .node [.sym "reference", .str "R1"]]]]]

/-- A second symbol carrying the same (path, reference text) pair — for
    example another unit of a multi-unit part. -/
def compB : List SExpr :=
  [.sym "symbol",
   .node [.sym "uuid", .str "other"],
   .node [.sym "instances",
     .node [.sym "project", .str "proj",
       .node [.sym "path", .str "/p/a",
         .node [.sym "reference", .str "R1"]]]]]

def rmOne : RenameMap := [⟨"R1", "R2", "/p/a"⟩]

def compArenamed : List SExpr :=
  [.sym "symbol",
   .node [.sym "instances",
     .node [.sym "project", .str "proj",
       .node [.sym "path", .str "/p/a",
         .node [.sym "reference", .str "R2"]]]]]

def compBrenamed : List SExpr :=
  [.sym "symbol",
   .node [.sym "uuid", .str "other"],
   .node [.sym "instances",
     .node [.sym "project", .str "proj",
       .node [.sym "path", .str "/p/a",
         .node [.sym "reference", .str "R2"]]]]]

/-- Two raw BOM rows sharing the old reference text R1 under two different
    instance paths, with different values (so they land in different
    groups). -/
def dfTwoPaths : DF := ⟨["Reference", "Value", "Description", "Footprint", "pID"],
  [[.s "R1", .s "1k", .s "-", .s "-", .s "/a"],
   [.s "R1", .s "2k", .s "-", .s "-", .s "/b"]]⟩

/-- An already-compacted project: R1 and R2 in group order. -/
def dfCompact : DF := ⟨["Reference", "Value", "Description", "Footprint", "pID"],
  [[.s "R1", .s "1k", .s "-", .s "-", .s "/a"],
   [.s "R2", .s "2k", .s "-", .s "-", .s "/a"]]⟩

def cdfCompact : DF := ⟨["Reference", "Value", "Qty", "Footprint", "Description"],
  [[.l ["R1"], .s "1k", .i 1, .s "-", .s "-"],
   [.l ["R2"], .s "2k", .i 1, .s "-", .s "-"]]⟩

/-- A symbol whose instance reference text is empty but whose Reference
    property holds R7. -/
def compEmptyRef : List SExpr :=
  [.sym "symbol",
   .node [.sym "property", .str "Reference", .str "R7"],
   .node [.sym "property", .str "Value", .str "1k"],
   .node [.sym "instances",
     .node [.sym "project", .str "proj",
       .node [.sym "path", .str "/u1/x",
         .node [.sym "reference", .str ""]]]]]

/-- A one-symbol project for the BOM-export scenarios. -/
def symPlain : SExpr := .node
  [.sym "symbol",
   .node [.sym "property", .str "Value", .str "1k"],
   .node [.sym "instances",
     .node [.sym "project", .str "proj",
       .node [.sym "path", .str "/u1/x",
         .node [.sym "reference", .str "R1"]]]]]

def loadsPlain : String → List SExpr := fun s =>
  if s = "raw9" then [.node [.sym "uuid", .str "u1"], symPlain] else []

def fsPlain : FS := [("root", "raw9")]

def basePlain : DF := ⟨["Reference", "Value", "Description", "Footprint", "pID"],
  [[.s "R1", .s "1k", .s "-", .s "-", .s "/u1/x"]]⟩

def condensedPlain : DF := ⟨["Reference", "Value", "Qty", "Footprint", "Description"],
  [[.s "R1", .s "1k", .i 1, .s "-", .s "-"]]⟩

/-- The store produced by running condense_df_st on dfCompact at handle 0:
    handle 0 still holds the input; 1 holds the sorted pID-less copy; 2 the
    grouped frame with Qty; 3 the reordered, re-sorted result. -/
def stAfterCompact : PdStore :=
  ⟨[(0, dfCompact),
    (1, ⟨["Reference", "Value", "Description", "Footprint"],
      [[.s "R1", .s "1k", .s "-", .s "-"],
       [.s "R2", .s "2k", .s "-", .s "-"]]⟩),
    (2, ⟨["Value", "Description", "Footprint", "Reference", "Qty"],
      [[.s "1k", .s "-", .s "-", .s "R1", .i 1],
       [.s "2k", .s "-", .s "-", .s "R2", .i 1]]⟩),
    (3, ⟨["Reference", "Value", "Qty", "Footprint", "Description"],
      [[.s "R1", .s "1k", .i 1, .s "-", .s "-"],
       [.s "R2", .s "2k", .i 1, .s "-", .s "-"]]⟩)],
   4⟩

/-! ## Helper lemmas -/

theorem str_data_inj {a b : String} (h : a.data = b.data) : a = b := by
  cases a
  cases b
  exact congrArg String.mk h

theorem str_mk_data (s : String) : String.mk s.data = s := by
  cases s
  rfl

theorem fsGet_fsSet_self (fs : FS) (k v : String) : fsGet (fsSet fs k v) k = some v := by
  induction fs with
  | nil => simp [fsSet, fsGet]
  | cons p t ih =>
    by_cases h : p.1 = k
    · simp [fsSet, fsGet, h]
    · simp [fsSet, fsGet, h, ih]

theorem fsGet_fsSet_ne (fs : FS) (k1 k2 v : String) (h : k1 ≠ k2) :
    fsGet (fsSet fs k1 v) k2 = fsGet fs k2 := by
  induction fs with
  | nil => simp [fsSet, fsGet, h]
  | cons p t ih =>
    by_cases h1 : p.1 = k1
    · simp [fsSet, fsGet, h1, h]
    · by_cases h2 : p.1 = k2
      · simp [fsSet, fsGet, h1, h2, Ne.symm h]
      · simp [fsSet, fsGet, h1, h2, ih]

theorem underscore_ne (a : String) : "_" ++ a ≠ a := by
  intro h
  have hd := congrArg (fun s => s.data.length) h
  simp [String.data_append] at hd

theorem pathJoin_inj (path a b : String) (h : pathJoin path a = pathJoin path b) :
    a = b := by
  unfold pathJoin at h
  by_cases hp : path = ""
  · simpa [hp] using h
  · simp only [hp, if_false] at h
    have hd := congrArg String.data h
    simp only [String.data_append, List.append_assoc] at hd
    exact str_data_inj (List.append_cancel_left (List.append_cancel_left hd))

/-! ## Claim C1 -/

/-- Claim C1 (code bug): the rewrite pass is meant to consume a rename-map
    entry on first application ("# Prevent re-renaming" before
    `rename_map.drop(v)`), but pandas drop without inplace=True returns a
    new frame that the source discards.  At this concrete input the single
    entry (R1, /p/a) -> R2 is applied to one leaf of compA and then again to
    the identical (path, reference text) leaf of compB, and the map still
    holds the entry after both applications. -/
theorem C1_entry_never_consumed :
    replace_instance_ref compA rmOne = (compArenamed, rmOne)
    ∧ replace_instance_ref compB (replace_instance_ref compA rmOne).2
      = (compBrenamed, rmOne) :=
  ⟨rfl, rfl⟩

/-! ## Claim C3 -/

/-- Claim C3 (code bug): the planning dict of compress_references is keyed
    by the old reference text alone, so when R1 appears under two instance
    paths with different attributes the second assignment overwrites the
    first, and both occurrences end up mapped to the same new reference R2 —
    a reference collision, not two distinct per-path entries. -/
theorem C3_same_text_collapses :
    compress_references_plan dfTwoPaths
      = .ok [⟨"R1", "R2", "/a"⟩, ⟨"R1", "R2", "/b"⟩] := by
  decide

/-! ## Claim C4 -/

/-- Claim C4 counterexample: in a diamond hierarchy (R references B and C;
    B and C both reference D) the rewrite pass processes D once per
    referencing parent — the trace lists p/D twice — and the second pass
    overwrites the backup _D with the already-rewritten content instead of
    the original rawD. -/
theorem C4_counterexample_shared_child_twice :
    (replace_references loadsDiamond dumpsConst 4 "p" "R" [] none fsDiamond).map
        (fun r => r.2.2)
      = .ok ["p/R", "p/B", "p/D", "p/C", "p/D"]
    ∧ (replace_references loadsDiamond dumpsConst 4 "p" "R" [] none fsDiamond).map
        (fun r => fsGet r.1 "p/_D")
      = .ok (some "serialized") :=
  ⟨rfl, rfl⟩

/-- Claim C4 as amended: deduplication of child fileNames happens only among
    the children of a single parent sheet — the recursion list built from
    one sheet contains each fileName at most once; a fileName referenced
    from two different parent sheets is processed once per parent. -/
theorem C4_amended_sibling_dedup (sheets : List (String × String)) :
    (childList sheets).Nodup := by
  unfold childList
  split
  · exact List.nodup_dedup _
  · exact List.nodup_nil

/-! ## Claim C2 -/

/-- Claim C2 counterexample: a sheet in which no reference leaf changes (the
    parse yields no symbol at all and the rename map is empty, so the
    processed tree equals the parsed tree) is still backed up and rewritten:
    after the pass the backup _f holds the original content and f holds the
    freshly serialized tree. -/
theorem C2_counterexample_unchanged_still_backed_up :
    replace_references (fun _ => []) (fun _ => "serialized") 1 "" "f" [] none
        [("f", "orig")]
      = .ok ([("_f", "orig"), ("f", "serialized")], [], ["f"])
    ∧ (processTop ((fun (_ : String) => ([] : List SExpr)) "orig") [] none).items
      = (fun (_ : String) => ([] : List SExpr)) "orig" :=
  ⟨rfl, rfl⟩

/-- Claim C2 as amended: the rewriter backs up and rewrites every processed
    sheet unconditionally (no changed-leaf test exists), and when it does,
    the original content is moved to the backup named by prefixing the
    filename with an underscore (overwriting any prior backup) before the
    primary file is overwritten; afterwards the backup equals the
    pre-mutation content byte for byte and the primary file holds the
    serialized, possibly rewritten tree. -/
theorem C2_amended_unconditional_backup (loads : String → List SExpr)
    (dumps : List SExpr → String) (fuel : Nat) (path filename : String)
    (rm : RenameMap) (pid : Option String) (fs : FS) (raw : String)
    (hfile : fsGet fs (pathJoin path filename) = some raw)
    (hnosheets : (processTop (loads raw) rm pid).sheets = [])
    (hbranch : pyIn path (pathSplit filename).1 = false) :
    ∃ fs2,
      replace_references loads dumps (fuel + 1) path filename rm pid fs
        = .ok (fs2, (processTop (loads raw) rm pid).rm, [pathJoin path filename])
      ∧ fsGet fs2 (pathJoin path ("_" ++ filename)) = some raw
      ∧ fsGet fs2 (pathJoin path filename)
          = some (dumps (processTop (loads raw) rm pid).items) := by
  refine ⟨fsSet (fsSet (fsRemove fs (pathJoin path filename))
      (pathJoin path ("_" ++ filename)) raw)
      (pathJoin path filename) (dumps (processTop (loads raw) rm pid).items),
    ?_, ?_, ?_⟩
  · simp only [replace_references, hfile, osReplace, hbranch, Bool.false_eq_true,
      if_false, childList, hnosheets, List.length_nil, foldChildren]
  · have hne : pathJoin path filename ≠ pathJoin path ("_" ++ filename) := by
      intro h
      exact underscore_ne filename (pathJoin_inj path filename ("_" ++ filename) h).symm
    rw [fsGet_fsSet_ne _ _ _ _ hne, fsGet_fsSet_self]
  · rw [fsGet_fsSet_self]

/-- Claim C2 witness: the amended statement at a concrete one-sheet project. -/
theorem C2_amended_unconditional_backup_witness :
    ∃ fs2,
      replace_references (fun _ => []) dumpsConst 1 "p" "f" [] none [("p/f", "orig")]
        = .ok (fs2, [], ["p/f"])
      ∧ fsGet fs2 "p/_f" = some "orig"
      ∧ fsGet fs2 "p/f" = some "serialized" := by
  have h := C2_amended_unconditional_backup (fun _ => []) dumpsConst 0 "p" "f" [] none
    [("p/f", "orig")] "orig" (by rfl) (by rfl) (by rfl)
  simpa using h

/-! ## Claim C7 -/

theorem planLoop_assigns_pre (l : List String) :
    ∀ idx rmap acc, ∃ t, (planLoop l idx rmap acc).2.2 = acc ++ t := by
  induction l with
  | nil => intro idx rmap acc; exact ⟨[], (List.append_nil acc).symm⟩
  | cons r rest ih =>
    intro idx rmap acc
    simp only [planLoop]
    obtain ⟨t, ht⟩ := ih (idxBump idx (getPfxQ r))
      (if getPfxQ r ++ intStr (idxGet idx (getPfxQ r)) ≠ r then
        dictInsert rmap r (getPfxQ r ++ intStr (idxGet idx (getPfxQ r))) else rmap)
      (acc ++ [(r, getPfxQ r ++ intStr (idxGet idx (getPfxQ r)))])
    refine ⟨(r, getPfxQ r ++ intStr (idxGet idx (getPfxQ r))) :: t, ?_⟩
    rw [ht, List.append_assoc]
    rfl

theorem planLoop_rmap_fixed (l : List String) :
    ∀ idx rmap acc,
      (∀ p ∈ (planLoop l idx rmap acc).2.2, p.1 = p.2) →
      (planLoop l idx rmap acc).1 = rmap := by
  induction l with
  | nil => intro idx rmap acc _; rfl
  | cons r rest ih =>
    intro idx rmap acc hall
    simp only [planLoop] at hall ⊢
    obtain ⟨t, ht⟩ := planLoop_assigns_pre rest (idxBump idx (getPfxQ r))
      (if getPfxQ r ++ intStr (idxGet idx (getPfxQ r)) ≠ r then
        dictInsert rmap r (getPfxQ r ++ intStr (idxGet idx (getPfxQ r))) else rmap)
      (acc ++ [(r, getPfxQ r ++ intStr (idxGet idx (getPfxQ r)))])
    have hmem : (r, getPfxQ r ++ intStr (idxGet idx (getPfxQ r))) ∈
        (planLoop rest (idxBump idx (getPfxQ r))
          (if getPfxQ r ++ intStr (idxGet idx (getPfxQ r)) ≠ r then
            dictInsert rmap r (getPfxQ r ++ intStr (idxGet idx (getPfxQ r))) else rmap)
          (acc ++ [(r, getPfxQ r ++ intStr (idxGet idx (getPfxQ r)))])).2.2 := by
      rw [ht]
      simp
    have heq := hall _ hmem
    have hnot : ¬(getPfxQ r ++ intStr (idxGet idx (getPfxQ r)) ≠ r) :=
      fun hne => hne heq.symm
    rw [if_neg hnot] at hall ⊢
    exact ih _ _ _ hall

theorem dictGetD_nil (k d : String) : dictGetD [] k d = d := rfl

/-- Claim C7: a project whose references are already compacted — every
    reference equal to the text the planning walk assigns it — yields an
    empty rename map from compress_references, a no-op run. -/
theorem planFromCondensed_fixed (df cdf : DF)
    (hfix : ∀ p ∈ planAssignments cdf, p.1 = p.2) :
    planFromCondensed df cdf = [] := by
  simp only [planAssignments] at hfix
  simp only [planFromCondensed]
  rw [planLoop_rmap_fixed _ _ _ _ hfix]
  simp [dictGetD_nil, List.filter_map, Function.comp_def, List.insertionSort]

/-- Claim C7: a project whose references are already compacted — every
    reference equal to the text the planning walk assigns it — yields an
    empty rename map from compress_references, a no-op run. -/
theorem C7_compacted_plan_empty (df cdf : DF)
    (hc : _condense_df df false false = .ok cdf)
    (hfix : ∀ p ∈ planAssignments cdf, p.1 = p.2) :
    compress_references_plan df = .ok [] := by
  unfold compress_references_plan
  rw [hc]
  show Except.ok (planFromCondensed df cdf) = _
  rw [planFromCondensed_fixed df cdf hfix]

/-- Claim C7 witness: the already-compacted two-row project. -/
theorem C7_compacted_plan_empty_witness :
    compress_references_plan dfCompact = .ok [] :=
  C7_compacted_plan_empty dfCompact cdfCompact (by decide) (by decide)

/-! ## Claim C8 -/

/-- Property scanning never rewrites a nonempty instance reference and never
    raises the ignore flag for it: the Reference-property fallback is only
    reachable when the instance reference text is empty. -/
theorem scanProps_pos_ref (com : List SExpr) (keys ignr : List String) (ref : String)
    (h : ref.length > 0) :
    ∀ td, (scanProps com keys ignr ref td).1 = ref
      ∧ (scanProps com keys ignr ref td).2.2 = false := by
  induction com with
  | nil => intro td; exact ⟨rfl, rfl⟩
  | cons v rest ih =>
    intro td
    cases v with
    | sym s => exact ih td
    | str s => exact ih td
    | node items =>
      simp only [scanProps]
      split
      · split
        · exact ih td
        · split
          · split
            · rename_i hcond
              exact absurd hcond.1 (by omega)
            · split
              · exact ih _
              · exact ih _
          · exact ih td
      · exact ih td

/-- Claim C8 counterexample: a component whose instance reference text is
    empty still produces a Component Row — the row carries the value of the
    Reference property (R7) — contradicting "no Component Row for any
    reference that is empty". -/
theorem C8_counterexample_empty_ref_row :
    get_BOM_items [compEmptyRef] (some "u1") ["G", "H", "J"] true []
      = .ok ⟨bomKeys [], [[.s "R7", .s "1k", .s "-", .s "-", .s "/u1/x"]]⟩ := by
  decide

/-- Claim C8 as amended: a nonempty reference beginning with "#" or with a
    character of the ignore set yields no row; every other nonempty
    reference yields exactly one row carrying that reference; an empty
    reference is NOT skipped — it is resolved from the Reference property by
    the scan, which alone decides (by the same "#"/ignore test on the
    resolved text) whether a row is produced. -/
theorem C8_amended_skip_and_retain (com : List SExpr) (addF ignr : List String)
    (ref pID : String) :
    (ref.length > 0 → (headIs ref '#' || headIn ref ignr) = true →
      processRefs com (bomKeys addF) ignr [(ref, pID)] = [])
    ∧ (ref.length > 0 → (headIs ref '#' || headIn ref ignr) = false →
      processRefs com (bomKeys addF) ignr [(ref, pID)]
        = [setByKey (bomKeys addF)
            (scanProps com (bomKeys addF) ignr ref (initTd (bomKeys addF) pID)).2.1
            "Reference" (.s ref)])
    ∧ (ref.length = 0 →
      processRefs com (bomKeys addF) ignr [(ref, pID)]
        = (if (scanProps com (bomKeys addF) ignr ref (initTd (bomKeys addF) pID)).2.2 then
            ([] : List (List Cell))
          else [setByKey (bomKeys addF)
            (scanProps com (bomKeys addF) ignr ref (initTd (bomKeys addF) pID)).2.1
            "Reference"
            (.s (scanProps com (bomKeys addF) ignr ref (initTd (bomKeys addF) pID)).1)])) := by
  refine ⟨fun hpos hskip => ?_, fun hpos hskip => ?_, fun hzero => ?_⟩
  · rw [Bool.or_eq_true] at hskip
    rcases hskip with h | h <;>
      simp [processRefs, List.filterMap_cons, hpos, h]
  · have hs := scanProps_pos_ref com (bomKeys addF) ignr ref hpos (initTd (bomKeys addF) pID)
    rw [Bool.or_eq_false_iff] at hskip
    simp [processRefs, List.filterMap_cons, hpos, hskip.1, hskip.2, hs.1, hs.2]
  · by_cases hflag :
        (scanProps com (bomKeys addF) ignr ref (initTd (bomKeys addF) pID)).2.2 = true
    · simp [processRefs, List.filterMap_cons, hzero, hflag]
    · simp [processRefs, List.filterMap_cons, hzero, hflag]

/-- Claim C8 witness: the three cases of the amended statement at concrete
    references (an ignored G1, a retained R5, and the empty reference). -/
theorem C8_amended_skip_and_retain_witness :
    processRefs compEmptyRef (bomKeys []) ["G", "H", "J"] [("G1", "/p")] = []
    ∧ processRefs compEmptyRef (bomKeys []) ["G", "H", "J"] [("R5", "/p")]
        = [setByKey (bomKeys [])
            (scanProps compEmptyRef (bomKeys []) ["G", "H", "J"] "R5"
              (initTd (bomKeys []) "/p")).2.1 "Reference" (.s "R5")]
    ∧ processRefs compEmptyRef (bomKeys []) ["G", "H", "J"] [("", "/p")]
        = (if (scanProps compEmptyRef (bomKeys []) ["G", "H", "J"] ""
              (initTd (bomKeys []) "/p")).2.2 then ([] : List (List Cell))
           else [setByKey (bomKeys [])
            (scanProps compEmptyRef (bomKeys []) ["G", "H", "J"] ""
              (initTd (bomKeys []) "/p")).2.1 "Reference"
            (.s (scanProps compEmptyRef (bomKeys []) ["G", "H", "J"] ""
              (initTd (bomKeys []) "/p")).1)]) :=
  ⟨(C8_amended_skip_and_retain compEmptyRef [] ["G", "H", "J"] "G1" "/p").1
      (by decide) (by decide),
   (C8_amended_skip_and_retain compEmptyRef [] ["G", "H", "J"] "R5" "/p").2.1
      (by decide) (by decide),
   (C8_amended_skip_and_retain compEmptyRef [] ["G", "H", "J"] "" "/p").2.2
      (by decide)⟩

/-! ## Claim C9 -/

/-- Claim C9 counterexample: with to_csv=True (the default) and an unknown
    custom-order column, get_BOM_all_sheets writes the CSV export and only
    then raises the ValueError — so a file IS written on this read-only path
    before the error surfaces. -/
theorem C9_counterexample_csv_written_before_error :
    get_BOM_all_sheets loadsPlain (fun _ => "CSV") (fun _ _ => "") 2 "" "root"
        true [] (some ["Bogus"]) fsPlain
      = ([("root", "raw9"), ("root_BOM.csv", "CSV")], .error (.valueError ["Bogus"])) := by
  decide

/-- Claim C9 as amended: an unknown custom-order column raises a ValueError
    naming exactly the missing columns and no schematic sheet is mutated,
    but the CSV export (when to_csv is set) has already been written before
    the error is raised; no key other than the CSV file changes. -/
theorem C9_amended_error_after_csv (loads : String → List SExpr)
    (toCsv : DF → String) (render : DF → List String → String) (fuel : Nat)
    (bp fn : String) (to_csv : Bool) (addF co : List String) (fs : FS)
    (base condensed : DF)
    (hparse : parse_file loads fuel bp fn none addF fs = .ok base)
    (hcond : _condense_df base true true = .ok condensed)
    (hmiss : (co.filter (fun c => !(condensed.cols.contains c))).length > 0) :
    get_BOM_all_sheets loads toCsv render fuel bp fn to_csv addF (some co) fs
      = ((if to_csv then fsSet fs (pathJoin bp (csvName fn)) (toCsv condensed) else fs),
         .error (.valueError (co.filter (fun c => !(condensed.cols.contains c)))))
    ∧ ∀ k, k ≠ pathJoin bp (csvName fn) →
        fsGet (get_BOM_all_sheets loads toCsv render fuel bp fn to_csv addF
          (some co) fs).1 k = fsGet fs k := by
  have hdf : df_to_string render condensed (some co)
      = .error (.valueError (co.filter (fun c => !(condensed.cols.contains c)))) := by
    unfold df_to_string df_to_string_check
    simp only [hmiss, if_true]
    rfl
  have hmain : get_BOM_all_sheets loads toCsv render fuel bp fn to_csv addF (some co) fs
      = ((if to_csv then fsSet fs (pathJoin bp (csvName fn)) (toCsv condensed) else fs),
         .error (.valueError (co.filter (fun c => !(condensed.cols.contains c))))) := by
    simp only [get_BOM_all_sheets, hparse, hcond, hdf]
  refine ⟨hmain, fun k hk => ?_⟩
  rw [hmain]
  by_cases hcsv : to_csv
  · simp only [hcsv, if_true]
    exact fsGet_fsSet_ne _ _ _ _ (Ne.symm hk)
  · simp [hcsv]

/-- Claim C9 witness: the amended statement at the concrete one-symbol
    project. -/
theorem C9_amended_error_after_csv_witness :
    get_BOM_all_sheets loadsPlain (fun _ => "CSV") (fun _ _ => "") 2 "" "root"
        true [] (some ["Bogus"]) fsPlain
      = ((if true then fsSet fsPlain (pathJoin "" (csvName "root"))
            ((fun _ => "CSV") condensedPlain) else fsPlain),
         .error (.valueError (["Bogus"].filter
            (fun c => !(condensedPlain.cols.contains c)))))
    ∧ ∀ k, k ≠ pathJoin "" (csvName "root") →
        fsGet (get_BOM_all_sheets loadsPlain (fun _ => "CSV") (fun _ _ => "") 2 ""
          "root" true [] (some ["Bogus"]) fsPlain).1 k = fsGet fsPlain k :=
  C9_amended_error_after_csv loadsPlain (fun _ => "CSV") (fun _ _ => "") 2 "" "root"
    true [] ["Bogus"] fsPlain basePlain condensedPlain (by decide) (by decide) (by decide)

/-! ## Claim C10 -/

theorem stGet_stSet_self (m : List (Nat × DF)) (k : Nat) (v : DF) :
    stGet (stSet m k v) k = some v := by
  induction m with
  | nil => simp [stSet, stGet]
  | cons p t ih =>
    by_cases h : p.1 = k
    · simp [stSet, stGet, h]
    · simp [stSet, stGet, h, ih]

theorem stGet_stSet_ne (m : List (Nat × DF)) (k1 k2 : Nat) (v : DF) (h : k1 ≠ k2) :
    stGet (stSet m k1 v) k2 = stGet m k2 := by
  induction m with
  | nil => simp [stSet, stGet, h]
  | cons p t ih =>
    by_cases h1 : p.1 = k1
    · simp [stSet, stGet, h1, h, Ne.symm h]
    · by_cases h2 : p.1 = k2
      · simp [stSet, stGet, h1, h2, Ne.symm h]
      · simp [stSet, stGet, h1, h2, ih]

/-- Claim C10: _condense_df never mutates its input frame — under the store
    semantics that separates the allocating pandas calls from the in-place
    ones, every in-place operation lands on a handle allocated inside the
    call, and the input handle still holds the untouched input frame
    afterwards. -/
theorem C10_condense_keeps_input (st : PdStore) (h : Nat) (df : DF)
    (rs ts : Bool) (st2 : PdStore) (h2 : Nat)
    (hget : stGet st.mem h = some df) (hlt : h < st.next)
    (hrun : condense_df_st st h rs ts = .ok (st2, h2)) :
    stGet st2.mem h = some df := by
  unfold condense_df_st at hrun
  rw [hget] at hrun
  simp only [stAlloc, stMut, stGet_stSet_self] at hrun
  cases hq : condenseQtyRefs
      (groupByRefs (sortRowsBy (dropCol df "pID") "Reference").cols
        (sortRowsBy (dropCol df "pID") "Reference").rows) rs ts with
  | error e =>
    rw [hq] at hrun
    have hcontra : (Except.error e : Except PyErr (PdStore × Nat))
        = Except.ok (st2, h2) := hrun
    cases hcontra
  | ok upd =>
    rw [hq] at hrun
    replace hrun : Except.ok (PdStore.mk
        (stSet (stSet (stSet (stSet (stSet (stSet st.mem
            st.next (dropCol df "pID"))
            st.next (sortRowsBy (dropCol df "pID") "Reference"))
            (st.next + 1) (groupByRefs (sortRowsBy (dropCol df "pID") "Reference").cols
              (sortRowsBy (dropCol df "pID") "Reference").rows))
            (st.next + 1) upd)
            (st.next + 1 + 1) (condenseReorder upd))
            (st.next + 1 + 1) (condenseResort (condenseReorder upd)))
        (st.next + 1 + 1 + 1), st.next + 1 + 1)
        = Except.ok (st2, h2) := hrun
    simp only [Except.ok.injEq, Prod.mk.injEq] at hrun
    obtain ⟨hst, _⟩ := hrun
    rw [← hst]
    dsimp only
    rw [stGet_stSet_ne _ _ _ _ (by omega), stGet_stSet_ne _ _ _ _ (by omega),
        stGet_stSet_ne _ _ _ _ (by omega), stGet_stSet_ne _ _ _ _ (by omega),
        stGet_stSet_ne _ _ _ _ (by omega), stGet_stSet_ne _ _ _ _ (by omega)]
    exact hget

/-- Claim C10 witness: running the condenser over a concrete two-row store
    leaves the input frame at handle 0 untouched. -/
theorem C10_condense_keeps_input_witness :
    stGet stAfterCompact.mem 0 = some dfCompact :=
  C10_condense_keeps_input ⟨[(0, dfCompact)], 1⟩ 0 dfCompact true true
    stAfterCompact 3 (by decide) (by decide) (by decide)

/-! ## Claims C5 and C6: parsing lemmas -/

theorem pyInt?_digits (ds : List Char) (hne : ds ≠ [])
    (hdig : ∀ c ∈ ds, c.isDigit = true) :
    pyInt? ds = some (digitsToInt ds) := by
  cases ds with
  | nil => exact absurd rfl hne
  | cons c rest =>
    have hc := hdig c (List.mem_cons_self c rest)
    have hcm : c ≠ '-' := fun h => by rw [h] at hc; exact absurd hc (by decide)
    have hcp : c ≠ '+' := fun h => by rw [h] at hc; exact absurd hc (by decide)
    have hall : (c :: rest).all Char.isDigit = true := by
      rw [List.all_eq_true]
      exact hdig
    simp [pyInt?, hcm, hcp, hall]

theorem pyInt?_pfxChar (c : Char) (rest : List Char) (hc : pfxChar c) :
    pyInt? (c :: rest) = none := by
  obtain ⟨hd, hm, hp, _, _⟩ := hc
  have hall : (c :: rest).all Char.isDigit = false := by
    simp [List.all_cons, hd]
  simp [pyInt?, hm, hp, hall]

theorem findIntSplit_eq (p : List Char) :
    ∀ (acc ds : List Char), (∀ c ∈ p, pfxChar c) → ds ≠ [] →
      (∀ c ∈ ds, c.isDigit = true) →
      findIntSplit acc (p ++ ds) = some (acc ++ p, digitsToInt ds) := by
  induction p with
  | nil =>
    intro acc ds _ hne hdig
    cases ds with
    | nil => exact absurd rfl hne
    | cons d rest =>
      simp only [List.nil_append, findIntSplit,
        pyInt?_digits (d :: rest) hne hdig]
      simp
  | cons c p2 ih =>
    intro acc ds hp hne hdig
    have hc := hp c (List.mem_cons_self c p2)
    simp only [List.cons_append, findIntSplit, pyInt?_pfxChar c _ hc, List.append_eq]
    rw [ih (acc ++ [c]) ds (fun x hx => hp x (List.mem_cons_of_mem c hx)) hne hdig]
    simp

theorem extractIntsLoop_canon (P : String) (hP : ∀ c ∈ P.data, pfxChar c) :
    ∀ (nums : List Int) (pfx0 : String), (∀ n ∈ nums, canonInt n) →
      (pfx0 = "" ∨ pfx0 = P) →
      extractIntsLoop (nums.map (fun n => P ++ intStr n)) pfx0
        = (nums, if nums.isEmpty then pfx0 else P) := by
  intro nums
  induction nums with
  | nil => intro pfx0 _ _; simp [extractIntsLoop]
  | cons n ns ih =>
    intro pfx0 hc hp0
    have hcn := hc n (List.mem_cons_self n ns)
    have hfind : findIntSplit [] (P ++ intStr n).data
        = some (P.data, digitsToInt (intStr n).data) := by
      rw [String.data_append]
      have := findIntSplit_eq P.data [] (intStr n).data hP hcn.2.1
        (fun c hx => hcn.2.2.1 c hx)
      simpa using this
    simp only [List.map_cons, extractIntsLoop, hfind]
    have hpfx1 : (if pfx0.length < 1 then String.mk P.data else pfx0) = P := by
      rcases hp0 with h | h
      · rw [h]
        simp [str_mk_data]
      · rw [h]
        split
        · exact str_mk_data P
        · rfl
    rw [hpfx1, ih P (fun x hx => hc x (List.mem_cons_of_mem n hx)) (Or.inr rfl)]
    simp [hcn.2.2.2, ite_self]

/-! ## Claims C5 and C6: sorting lemmas -/

theorem strLeB_refl (l : List Char) : strLeB l l = true := by
  induction l with
  | nil => rfl
  | cons c t ih => simp [strLeB, ih]

theorem pairLe_map_iff (P : String) (a b : Int) :
    pairLe (a, P ++ intStr a) (b, P ++ intStr b) ↔ a ≤ b := by
  constructor
  · rintro (h | ⟨h, _⟩)
    · exact le_of_lt h
    · exact le_of_eq h
  · intro h
    rcases lt_or_eq_of_le h with h1 | h1
    · exact Or.inl h1
    · subst h1
      exact Or.inr ⟨rfl, strLeB_refl _⟩

theorem orderedInsert_map_comm {α β : Type} (r : α → α → Prop) (s : β → β → Prop)
    [DecidableRel r] [DecidableRel s] (f : α → β)
    (hrs : ∀ a b, s (f a) (f b) ↔ r a b) (a : α) (l : List α) :
    (l.map f).orderedInsert s (f a) = (l.orderedInsert r a).map f := by
  induction l with
  | nil => rfl
  | cons b t ih =>
    simp only [List.map_cons, List.orderedInsert]
    by_cases h : r a b
    · rw [if_pos ((hrs a b).mpr h), if_pos h]
      simp
    · rw [if_neg (fun hs2 => h ((hrs a b).mp hs2)), if_neg h]
      simp only [List.map_cons, ih]

theorem insertionSort_map_comm {α β : Type} (r : α → α → Prop) (s : β → β → Prop)
    [DecidableRel r] [DecidableRel s] (f : α → β)
    (hrs : ∀ a b, s (f a) (f b) ↔ r a b) (l : List α) :
    (l.map f).insertionSort s = (l.insertionSort r).map f := by
  induction l with
  | nil => rfl
  | cons a t ih =>
    simp only [List.map_cons, List.insertionSort, ih]
    exact orderedInsert_map_comm r s f hrs a _

theorem zip_self_map {α β : Type} (f : α → β) (l : List α) :
    l.zip (l.map f) = l.map (fun a => (a, f a)) := by
  induction l with
  | nil => rfl
  | cons a t ih => simp [ih]

/-! ## Claims C5 and C6: run-compression lemmas -/

theorem expandRun_self (s : Int) : expandRun (s, s) = [s] := by
  simp [expandRun, List.range_succ]

theorem expandRun_succ (cs st : Int) (h : cs ≤ st) :
    expandRun (cs, st + 1) = expandRun (cs, st) ++ [st + 1] := by
  unfold expandRun
  have h1 : (st + 1 - cs).toNat + 1 = ((st - cs).toNat + 1) + 1 := by omega
  rw [h1, List.range_succ, List.map_append]
  congr 1
  simp only [List.map_cons, List.map_nil]
  congr 1
  simp only [Int.ofNat_eq_natCast]
  omega

theorem seqLoop_acc (l : List Int) :
    ∀ (comp : List (Int × Int)) (cs st : Int),
      seqLoop comp cs st l = comp ++ seqLoop [] cs st l := by
  induction l with
  | nil => intro comp cs st; rfl
  | cons i rest ih =>
    intro comp cs st
    simp only [seqLoop]
    by_cases hi : i ≠ st + 1
    · rw [if_pos hi, if_pos hi, ih (comp ++ [(cs, st)]), ih ([] ++ [(cs, st)])]
      simp
    · rw [if_neg hi, if_neg hi, ih comp]

theorem seqLoop_expand (l : List Int) :
    ∀ cs st, cs ≤ st → List.Chain' (fun a b => a < b) (st :: l) →
      ((seqLoop [] cs st l).map expandRun).flatten = expandRun (cs, st) ++ l := by
  induction l with
  | nil =>
    intro cs st _ _
    simp [seqLoop]
  | cons i rest ih =>
    intro cs st hcs hch
    obtain ⟨hlt, hch2⟩ := List.chain'_cons.mp hch
    simp only [seqLoop]
    by_cases hi : i ≠ st + 1
    · rw [if_pos hi, seqLoop_acc]
      simp only [List.nil_append, List.map_append, List.flatten_append,
        List.map_cons, List.map_nil, List.flatten_cons, List.flatten_nil]
      rw [ih i i le_rfl hch2, expandRun_self]
      simp
    · rw [if_neg hi]
      push_neg at hi
      rw [ih cs i (by omega) hch2, hi, expandRun_succ cs st hcs]
      simp

theorem seqLoop_bounds (l : List Int) :
    ∀ cs st, cs ≤ st →
      ∀ r ∈ seqLoop [] cs st l, r.1 ≤ r.2 ∧ r.1 ∈ cs :: l ∧ r.2 ∈ st :: l := by
  induction l with
  | nil =>
    intro cs st hcs r hr
    simp only [seqLoop, List.nil_append, List.mem_singleton] at hr
    subst hr
    exact ⟨hcs, by simp, by simp⟩
  | cons i rest ih =>
    intro cs st hcs r hr
    simp only [seqLoop] at hr
    by_cases hi : i ≠ st + 1
    · rw [if_pos hi, seqLoop_acc] at hr
      simp only [List.nil_append] at hr
      rcases List.mem_cons.mp hr with h1 | h2
      · subst h1
        exact ⟨hcs, by simp, by simp⟩
      · obtain ⟨ha, hb, hc⟩ := ih i i le_rfl r h2
        refine ⟨ha, ?_, ?_⟩
        · simp only [List.mem_cons] at hb ⊢
          tauto
        · simp only [List.mem_cons] at hc ⊢
          tauto
    · rw [if_neg hi] at hr
      obtain ⟨ha, hb, hc⟩ := ih cs i (by push_neg at hi; omega) r hr
      refine ⟨ha, ?_, ?_⟩
      · simp only [List.mem_cons] at hb ⊢
        tauto
      · simp only [List.mem_cons] at hc ⊢
        tauto

theorem specRunsGo_eq_seqLoop (l : List Int) :
    ∀ cs st, seqLoop [] cs st l = specRunsGo cs st l := by
  induction l with
  | nil => intro cs st; rfl
  | cons i rest ih =>
    intro cs st
    simp only [seqLoop, specRunsGo]
    by_cases hi : i = st + 1
    · rw [if_neg (by omega), if_pos hi, hi, ih]
    · rw [if_pos (by omega), if_neg hi, seqLoop_acc, ih]
      simp

/-! ## Claims C5 and C6: token decoding lemmas -/

theorem takeWhile_append_all {p : Char → Bool} (l1 l2 : List Char)
    (h : ∀ c ∈ l1, p c = true) :
    (l1 ++ l2).takeWhile p = l1 ++ l2.takeWhile p := by
  induction l1 with
  | nil => rfl
  | cons c t ih =>
    simp only [List.cons_append]
    rw [List.takeWhile_cons_of_pos (h c (List.mem_cons_self c t)),
      ih (fun x hx => h x (List.mem_cons_of_mem c hx))]

theorem dropWhile_append_all {p : Char → Bool} (l1 l2 : List Char)
    (h : ∀ c ∈ l1, p c = true) :
    (l1 ++ l2).dropWhile p = l2.dropWhile p := by
  induction l1 with
  | nil => rfl
  | cons c t ih =>
    simp only [List.cons_append]
    rw [List.dropWhile_cons_of_pos (h c (List.mem_cons_self c t)),
      ih (fun x hx => h x (List.mem_cons_of_mem c hx))]

theorem takeWhile_head_neg {p : Char → Bool} (l : List Char)
    (h : ∀ c ∈ l.head?, p c = false) : l.takeWhile p = [] := by
  cases l with
  | nil => rfl
  | cons c t =>
    exact List.takeWhile_cons_of_neg (by simp [h c (by simp)])

theorem dropWhile_head_neg {p : Char → Bool} (l : List Char)
    (h : ∀ c ∈ l.head?, p c = false) : l.dropWhile p = l := by
  cases l with
  | nil => rfl
  | cons c t =>
    exact List.dropWhile_cons_of_neg (by simp [h c (by simp)])

/-- The digit/prefix scan performed by decompressToken over one reference
    chunk prefix ++ digits ++ tail (tail begins with a non-digit). -/
theorem scan_ref_chunk (P : String) (s : Int) (tail : List Char)
    (hP : ∀ c ∈ P.data, pfxChar c) (hs : canonInt s)
    (htail : ∀ c ∈ tail.head?, c.isDigit = false) :
    ((P.data ++ ((intStr s).data ++ tail)).takeWhile (fun c => !c.isDigit) = P.data)
    ∧ ((P.data ++ ((intStr s).data ++ tail)).dropWhile (fun c => !c.isDigit)
        = (intStr s).data ++ tail)
    ∧ (((intStr s).data ++ tail).takeWhile (fun c => c.isDigit) = (intStr s).data)
    ∧ (((intStr s).data ++ tail).dropWhile (fun c => c.isDigit) = tail) := by
  have hPnd : ∀ c ∈ P.data, (!c.isDigit) = true := by
    intro c hc
    simp [(hP c hc).1]
  have hdig : ∀ c ∈ (intStr s).data, c.isDigit = true := hs.2.2.1
  have hhead : ∀ c ∈ ((intStr s).data ++ tail).head?, (!c.isDigit) = false := by
    intro c hc
    cases hd : (intStr s).data with
    | nil => exact absurd hd hs.2.1
    | cons d rest =>
      rw [hd] at hc
      simp only [List.cons_append, List.head?_cons, Option.mem_def,
        Option.some.injEq] at hc
      subst hc
      simp [hdig d (by rw [hd]; exact List.mem_cons_self d rest)]
  refine ⟨?_, ?_, ?_, ?_⟩
  · rw [takeWhile_append_all _ _ hPnd, takeWhile_head_neg _ hhead, List.append_nil]
  · rw [dropWhile_append_all _ _ hPnd, dropWhile_head_neg _ hhead]
  · rw [takeWhile_append_all _ _ hdig, takeWhile_head_neg _ htail, List.append_nil]
  · rw [dropWhile_append_all _ _ hdig, dropWhile_head_neg _ htail]

theorem mk_append_eq (P S : String) : String.mk (P.data ++ S.data) = P ++ S := by
  rw [← String.data_append, str_mk_data]

theorem decompressToken_single (P : String) (s : Int)
    (hP : ∀ c ∈ P.data, pfxChar c) (hs : canonInt s) :
    decompressToken (P ++ intStr s) = [P ++ intStr s] := by
  have hsc := scan_ref_chunk P s [] hP hs (by intro c hc; cases hc)
  have hdata : (P ++ intStr s).data = P.data ++ ((intStr s).data ++ []) := by
    simp [String.data_append]
  simp only [decompressToken, hdata, hsc.1, hsc.2.1, hsc.2.2.1, hsc.2.2.2]

theorem decompressToken_pair (P : String) (s e : Int)
    (hP : ∀ c ∈ P.data, pfxChar c) (hs : canonInt s) (he : canonInt e) :
    decompressToken (P ++ intStr s ++ ", " ++ P ++ intStr e)
      = [P ++ intStr s, P ++ intStr e] := by
  have hsc := scan_ref_chunk P s (',' :: ' ' :: (P.data ++ (intStr e).data)) hP hs
    (by intro c hc; simp only [List.head?_cons, Option.mem_def,
          Option.some.injEq] at hc; subst hc; decide)
  have hdata : (P ++ intStr s ++ ", " ++ P ++ intStr e).data
      = P.data ++ ((intStr s).data ++ (',' :: ' ' :: (P.data ++ (intStr e).data))) := by
    simp [String.data_append]
  have hsp : (P.data ++ (intStr e).data).dropWhile (fun c => c = ' ')
      = P.data ++ (intStr e).data := by
    apply dropWhile_head_neg
    intro c hc
    cases hdp : P.data with
    | nil =>
      rw [hdp] at hc
      cases hde : (intStr e).data with
      | nil => rw [hde] at hc; cases hc
      | cons d rest =>
        rw [hde] at hc
        simp only [List.nil_append, List.head?_cons, Option.mem_def,
          Option.some.injEq] at hc
        subst hc
        have := he.2.2.1 d (by rw [hde]; exact List.mem_cons_self d rest)
        simp only [decide_eq_false_iff_not]
        intro hsp2
        rw [hsp2] at this
        exact absurd this (by decide)
    | cons c1 t1 =>
      rw [hdp] at hc
      simp only [List.cons_append, List.head?_cons, Option.mem_def,
        Option.some.injEq] at hc
      subst hc
      have := (hP c1 (by rw [hdp]; exact List.mem_cons_self c1 t1)).2.2.2.2
      simp [this]
  simp only [decompressToken, hdata, hsc.1, hsc.2.1, hsc.2.2.1, hsc.2.2.2]
  rw [List.dropWhile_cons_of_pos (by decide), hsp]
  rw [mk_append_eq, mk_append_eq]

theorem decompressToken_range (P : String) (s e : Int)
    (hP : ∀ c ∈ P.data, pfxChar c) (hs : canonInt s) (he : canonInt e) :
    decompressToken (P ++ intStr s ++ "-" ++ P ++ intStr e)
      = (List.range ((e - s).toNat + 1)).map (fun k => P ++ intStr (s + Int.ofNat k)) := by
  have hsc := scan_ref_chunk P s ('-' :: (P.data ++ (intStr e).data)) hP hs
    (by intro c hc; simp only [List.head?_cons, Option.mem_def,
          Option.some.injEq] at hc; subst hc; decide)
  have hdata : (P ++ intStr s ++ "-" ++ P ++ intStr e).data
      = P.data ++ ((intStr s).data ++ ('-' :: (P.data ++ (intStr e).data))) := by
    simp [String.data_append]
  have hPnd : ∀ c ∈ P.data, (!c.isDigit) = true := by
    intro c hc
    simp [(hP c hc).1]
  have hd2 : (P.data ++ (intStr e).data).dropWhile (fun c => !c.isDigit)
      = (intStr e).data := by
    rw [dropWhile_append_all _ _ hPnd]
    apply dropWhile_head_neg
    intro c hc
    cases hde : (intStr e).data with
    | nil => rw [hde] at hc; cases hc
    | cons d rest =>
      rw [hde] at hc
      simp only [List.head?_cons, Option.mem_def, Option.some.injEq] at hc
      subst hc
      simp [he.2.2.1 d (by rw [hde]; exact List.mem_cons_self d rest)]
  simp only [decompressToken, hdata, hsc.1, hsc.2.1, hsc.2.2.1, hsc.2.2.2, hd2]
  rw [hs.2.2.2, he.2.2.2, str_mk_data]

theorem decompressToken_seqToken (P : String) (s e : Int)
    (hP : ∀ c ∈ P.data, pfxChar c) (hs : canonInt s) (he : canonInt e)
    (hse : s ≤ e) :
    decompressToken (seqToken P (s, e))
      = (expandRun (s, e)).map (fun n => P ++ intStr n) := by
  simp only [seqToken]
  by_cases h1 : (e - s).natAbs > 1
  · rw [if_pos h1, decompressToken_range P s e hP hs he]
    simp only [expandRun, List.map_map]
    rfl
  · by_cases h2 : s ≠ e
    · rw [if_neg h1, if_pos h2, decompressToken_pair P s e hP hs he]
      have he1 : e = s + 1 := by omega
      subst he1
      rw [expandRun_succ s s le_rfl, expandRun_self]
      rfl
    · push_neg at h2
      subst h2
      rw [if_neg h1, if_neg (by simp), decompressToken_single P s hP hs,
        expandRun_self]
      rfl

theorem refs_nodup (P : String) (nums : List Int) (hn : ∀ n ∈ nums, canonInt n)
    (hnd : nums.Nodup) : (nums.map (fun n => P ++ intStr n)).Nodup := by
  refine List.Nodup.map_on ?_ hnd
  intro a ha b hb hfe
  have hda := congrArg String.data hfe
  simp only [String.data_append] at hda
  have h2 := List.append_cancel_left hda
  have h3 : digitsToInt (intStr a).data = digitsToInt (intStr b).data := by rw [h2]
  rw [(hn a ha).2.2.2, (hn b hb).2.2.2] at h3
  exact h3

theorem extractIntsLoop_nonempty (P : String) (nums : List Int)
    (hP : ∀ c ∈ P.data, pfxChar c) (hn : ∀ n ∈ nums, canonInt n)
    (hne : nums ≠ []) :
    extractIntsLoop (nums.map (fun n => P ++ intStr n)) "" = (nums, P) := by
  rw [extractIntsLoop_canon P hP nums "" hn (Or.inl rfl)]
  have hemp : nums.isEmpty = false := by
    cases nums with
    | nil => exact absurd rfl hne
    | cons a t => rfl
  rw [hemp]
  simp

theorem pairs_sorted_eq (P : String) (nums : List Int) :
    List.insertionSort pairLe
        (nums.zip (nums.map (fun n => P ++ intStr n)))
      = (List.insertionSort (fun a b : Int => a ≤ b) nums).map
          (fun n => (n, P ++ intStr n)) := by
  rw [zip_self_map (fun n => P ++ intStr n) nums]
  exact insertionSort_map_comm (fun a b : Int => a ≤ b) pairLe
    (fun n => (n, P ++ intStr n)) (fun a b => pairLe_map_iff P a b) nums

theorem sortAsNumeric_true_eq (P : String) (nums : List Int) (s0 : Int)
    (srest : List Int) (hP : ∀ c ∈ P.data, pfxChar c)
    (hn : ∀ n ∈ nums, canonInt n) (hne : nums ≠ [])
    (hcons : List.insertionSort (fun a b : Int => a ≤ b) nums = s0 :: srest) :
    sortAsNumeric (nums.map (fun n => P ++ intStr n)) true
      = some ((seqLoop [] s0 s0 srest).map (seqToken P)) := by
  simp only [sortAsNumeric, extractIntsLoop_nonempty P nums hP hn hne,
    pairs_sorted_eq P nums, hcons, List.map_cons]
  simp [List.map_map, Function.comp_def]

theorem sortAsNumeric_false_eq (P : String) (nums : List Int) (s0 : Int)
    (srest : List Int) (hP : ∀ c ∈ P.data, pfxChar c)
    (hn : ∀ n ∈ nums, canonInt n) (hne : nums ≠ [])
    (hcons : List.insertionSort (fun a b : Int => a ≤ b) nums = s0 :: srest) :
    sortAsNumeric (nums.map (fun n => P ++ intStr n)) false
      = some ((s0 :: srest).map (fun n => P ++ intStr n)) := by
  simp only [sortAsNumeric, extractIntsLoop_nonempty P nums hP hn hne,
    pairs_sorted_eq P nums, hcons, List.map_cons]
  simp [List.map_map, Function.comp_def]

/-- Claim C5 counterexample: with a duplicated input reference the
    round-trip keeps both copies while sorted(set(refs)) keeps one, so the
    equation fails for that input list. -/
theorem C5_counterexample_duplicates :
    (sortAsNumeric ["R1", "R1"] true).map decompress
        ≠ sortedSetNumeric ["R1", "R1"]
    ∧ (sortAsNumeric ["R1", "R1"] true).map decompress = some ["R1", "R1"]
    ∧ sortedSetNumeric ["R1", "R1"] = some ["R1"] := by
  decide

/-- Claim C5 as amended: for every nonempty, duplicate-free reference list
    sharing a single (alphabetic, sign-free) prefix whose suffixes are
    canonical decimal numerals, decompressing the compression yields exactly
    sorted(set(refs)) under numeric sort. -/
theorem C5_amended_roundtrip (P : String) (nums : List Int)
    (hP : ∀ c ∈ P.data, pfxChar c) (hn : ∀ n ∈ nums, canonInt n)
    (hne : nums ≠ []) (hnd : nums.Nodup) :
    (sortAsNumeric (nums.map (fun n => P ++ intStr n)) true).map decompress
      = sortedSetNumeric (nums.map (fun n => P ++ intStr n)) := by
  have hperm : (List.insertionSort (fun a b : Int => a ≤ b) nums).Perm nums :=
    List.perm_insertionSort _ _
  have hnd2 : (List.insertionSort (fun a b : Int => a ≤ b) nums).Nodup :=
    hperm.symm.nodup hnd
  have hsortedlt : List.Sorted (fun a b : Int => a < b)
      (List.insertionSort (fun a b : Int => a ≤ b) nums) :=
    (List.sorted_insertionSort _ _).lt_of_le hnd2
  have hmem : ∀ n ∈ List.insertionSort (fun a b : Int => a ≤ b) nums, canonInt n :=
    fun n hx => hn n (hperm.subset hx)
  obtain ⟨s0, srest, hcons⟩ :
      ∃ s0 srest, List.insertionSort (fun a b : Int => a ≤ b) nums = s0 :: srest := by
    cases hx : List.insertionSort (fun a b : Int => a ≤ b) nums with
    | nil =>
      rw [hx] at hperm
      exact absurd hperm.symm.eq_nil hne
    | cons a t => exact ⟨a, t, rfl⟩
  have hchain : List.Chain' (fun a b : Int => a < b) (s0 :: srest) := by
    rw [← hcons]
    exact List.chain'_iff_pairwise.mpr hsortedlt
  have hruns := seqLoop_bounds srest s0 s0 le_rfl
  have hdec : decompress ((seqLoop [] s0 s0 srest).map (seqToken P))
      = ((seqLoop [] s0 s0 srest).map expandRun).flatten.map
          (fun n => P ++ intStr n) := by
    unfold decompress
    rw [List.map_map]
    have hcongr : (seqLoop [] s0 s0 srest).map (decompressToken ∘ seqToken P)
        = (seqLoop [] s0 s0 srest).map
            (fun r => (expandRun r).map (fun n => P ++ intStr n)) := by
      apply List.map_congr_left
      intro r hr
      obtain ⟨hle, hm1, hm2⟩ := hruns r hr
      have hc1 : canonInt r.1 := hmem r.1 (by rw [hcons]; exact hm1)
      have hc2 : canonInt r.2 := hmem r.2 (by rw [hcons]; exact hm2)
      exact decompressToken_seqToken P r.1 r.2 hP hc1 hc2 hle
    rw [hcongr]
    rw [show (seqLoop [] s0 s0 srest).map
          (fun r => (expandRun r).map (fun n => P ++ intStr n))
        = ((seqLoop [] s0 s0 srest).map expandRun).map
            (List.map (fun n => P ++ intStr n)) from (List.map_map _ _ _).symm]
    exact (List.map_flatten _ _).symm
  have hflat := seqLoop_expand srest s0 s0 le_rfl hchain
  rw [sortAsNumeric_true_eq P nums s0 srest hP hn hne hcons]
  unfold sortedSetNumeric
  rw [List.dedup_eq_self.mpr (refs_nodup P nums hn hnd)]
  rw [sortAsNumeric_false_eq P nums s0 srest hP hn hne hcons]
  rw [Option.map_some']
  congr 1
  rw [hdec, hflat, expandRun_self]
  rfl

/-- Claim C5 witness: the amended round-trip at a concrete list with a run
    (R5, R6, R7) and two stragglers. -/
theorem C5_amended_roundtrip_witness :
    (sortAsNumeric (([5, 15, 6, 7] : List Int).map (fun n => "R" ++ intStr n))
        true).map decompress
      = sortedSetNumeric (([5, 15, 6, 7] : List Int).map (fun n => "R" ++ intStr n)) :=
  C5_amended_roundtrip "R" [5, 15, 6, 7] (by decide) (by decide) (by decide)
    (by decide)

/-! ## Claim C6 -/

/-- Claim C6 counterexample: the singleton reference R05 (a non-canonical
    numeral) is not printed as-is — the code re-prints the parsed value and
    emits R5 — so "each singleton maps to the bare reference unchanged"
    fails as stated. -/
theorem C6_counterexample_leading_zero :
    sortAsNumeric ["R05"] true = some ["R5"]
    ∧ sortAsNumeric ["R05"] true ≠ some ["R05"] := by
  decide

/-- Claim C6 as amended: for every nonempty duplicate-free reference list
    sharing one alphabetic prefix with canonical decimal suffixes,
    compression maps each maximal run of consecutive values of length >= 3
    to exactly one Prefix start-Prefix end token, each run of length exactly
    2 to "Prefix a, Prefix b", and each singleton to the (canonical) bare
    reference. -/
theorem C6_amended_maximal_runs (P : String) (nums : List Int)
    (hP : ∀ c ∈ P.data, pfxChar c) (hn : ∀ n ∈ nums, canonInt n)
    (hne : nums ≠ []) (_hnd : nums.Nodup) :
    sortAsNumeric (nums.map (fun n => P ++ intStr n)) true
      = some ((specRuns (List.insertionSort (fun a b : Int => a ≤ b) nums)).map
          (specToken P)) := by
  have hperm : (List.insertionSort (fun a b : Int => a ≤ b) nums).Perm nums :=
    List.perm_insertionSort _ _
  obtain ⟨s0, srest, hcons⟩ :
      ∃ s0 srest, List.insertionSort (fun a b : Int => a ≤ b) nums = s0 :: srest := by
    cases hx : List.insertionSort (fun a b : Int => a ≤ b) nums with
    | nil =>
      rw [hx] at hperm
      exact absurd hperm.symm.eq_nil hne
    | cons a t => exact ⟨a, t, rfl⟩
  rw [sortAsNumeric_true_eq P nums s0 srest hP hn hne hcons, hcons]
  congr 1
  rw [show specRuns (s0 :: srest) = specRunsGo s0 s0 srest from rfl]
  rw [← specRunsGo_eq_seqLoop]
  apply List.map_congr_left
  intro r hr
  obtain ⟨hle, _, _⟩ := seqLoop_bounds srest s0 s0 le_rfl r hr
  simp only [seqToken, specToken]
  by_cases h1 : (r.2 - r.1).natAbs > 1
  · rw [if_pos h1, if_pos (by omega)]
  · rw [if_neg h1]
    by_cases h2 : r.1 ≠ r.2
    · rw [if_pos h2, if_neg (by omega), if_pos (by omega)]
    · push_neg at h2
      rw [if_neg (fun hx => hx h2), if_neg (by omega), if_neg (by omega)]

/-- Claim C6 witness: the amended statement at R5, R6, R7, R9 — one length-3
    run and one singleton. -/
theorem C6_amended_maximal_runs_witness :
    sortAsNumeric (([5, 6, 7, 9] : List Int).map (fun n => "R" ++ intStr n)) true
      = some ((specRuns (List.insertionSort (fun a b : Int => a ≤ b)
          [5, 6, 7, 9])).map (specToken "R")) :=
  C6_amended_maximal_runs "R" [5, 6, 7, 9] (by decide) (by decide) (by decide)
    (by decide)

end AutoBOM
